import Mathlib

/-!
Verification of the TEEP Tracker qualification/expiration engine and import
pipeline (source files `src/js/qualifications.js`, `src/js/import.js`,
`src/js/storage.js`).

Modelling conventions:
* JS `Date` objects that the code constructs from ISO date strings or from
  `new Date(y, m, d)` all sit at midnight; the model assumes a UTC host
  (local time = UTC), so a date is a civil triple `(y, m, d)` and JS
  timestamp comparison of two midnight dates is comparison of their civil
  day numbers (`Date.toDays`, Howard Hinnant's days-from-civil algorithm).
* Months are stored 1-based in the model; JavaScript's 0-based `getMonth`
  and `new Date(year, monthIndex, day)` are translated at each use site
  (the translation is noted in the comment of each definition).
* JS strings that undergo character-level processing are modelled as
  `List Char`; strings used only as opaque keys/labels stay `String`.
* Host behaviour that is outside the repository (the JS engine's generic
  `new Date(string)` fallback parser, and `String(dateObject)` printing) is
  abstracted as a `JsHost` parameter.
-/

namespace TeepTracker

/-- A civil calendar date. `m` is 1-based (January = 1). -/
structure Date where
  y : Int
  m : Int
  d : Int
deriving DecidableEq

/-- Gregorian leap-year test. -/
def isLeap (y : Int) : Bool :=
  (y % 4 == 0 && y % 100 != 0) || y % 400 == 0

/-- Number of days of month `m` (1-based) of year `y`. -/
def daysInMonth (y m : Int) : Int :=
  if m = 2 then (if isLeap y then 29 else 28)
  else if m = 4 ∨ m = 6 ∨ m = 9 ∨ m = 11 then 30
  else 31

/-- Days since the Unix epoch 1970-01-01 of a (valid) civil date; this is the
JS timestamp of the date at midnight UTC divided by 86400000
(days-from-civil algorithm). -/
def Date.toDays (dt : Date) : Int :=
  let yAdj : Int := if dt.m ≤ 2 then dt.y - 1 else dt.y
  let era : Int := Int.fdiv yAdj 400
  let yoe : Int := yAdj - era * 400
  let mp : Int := Int.emod (dt.m + 9) 12
  let doy : Int := Int.ediv (153 * mp + 2) 5 + dt.d - 1
  let doe : Int := yoe * 365 + Int.ediv yoe 4 - Int.ediv yoe 100 + doy
  era * 146097 + doe - 719468

/-- Civil date of a day count since the Unix epoch (civil-from-days
algorithm, inverse of `Date.toDays`). -/
def Date.fromDays (z : Int) : Date :=
  let z' : Int := z + 719468
  let era : Int := Int.fdiv z' 146097
  let doe : Int := z' - era * 146097
  let yoe : Int :=
    Int.ediv (doe - Int.ediv doe 1460 + Int.ediv doe 36524 - Int.ediv doe 146096) 365
  let y : Int := yoe + era * 400
  let doy : Int := doe - (365 * yoe + Int.ediv yoe 4 - Int.ediv yoe 100)
  let mp : Int := Int.ediv (5 * doy + 2) 153
  let d : Int := doy - Int.ediv (153 * mp + 2) 5 + 1
  let m : Int := if mp < 10 then mp + 3 else mp - 9
  ⟨if m ≤ 2 then y + 1 else y, m, d⟩

/-- Model of the JS constructor `new Date(y, m0, dd)` (month index `m0` is
0-based and may be out of range, `dd` may be out of range): the year/month
are normalised by carrying, then the timestamp is day 1 of that month plus
`dd - 1` days. -/
def mkJsDate (y m0 dd : Int) : Date :=
  let yAdj : Int := y + Int.fdiv m0 12
  let m : Int := Int.emod m0 12 + 1
  Date.fromDays (Date.toDays ⟨yAdj, m, 1⟩ + (dd - 1))

/-- Model of `d.setMonth(d.getMonth() + n)` on a date at midnight: JS
re-normalises the (year, monthIndex, day) triple through the timestamp,
which is exactly `new Date(y, (m-1) + n, d)`. -/
def addMonthsJs (dt : Date) (n : Int) : Date :=
  mkJsDate dt.y (dt.m - 1 + n) dt.d

/-- The epoch date `new Date(null)` / `new Date(0)` evaluates to. -/
def epochDate : Date := ⟨1970, 1, 1⟩

-- Sanity checks of the civil-date arithmetic.
example : epochDate.toDays = 0 := by decide
example : Date.fromDays 0 = epochDate := by decide
example : (Date.mk 2024 3 1).toDays - (Date.mk 2024 2 28).toDays = 2 := by decide
example : Date.fromDays (Date.mk 2025 6 30).toDays = ⟨2025, 6, 30⟩ := by decide
example : mkJsDate 2024 12 1 = ⟨2025, 1, 1⟩ := by decide
example : addMonthsJs ⟨2024, 1, 31⟩ 1 = ⟨2024, 3, 2⟩ := by decide

/-- A `{month, day}` window bound of a calendar-window qualification type
(1-based month, as in the source's `windowStart`/`windowEnd` objects). -/
structure MonthDay where
  month : Int
  day : Int
deriving DecidableEq

/-- A qualification type definition (`DEFAULT_QUAL_TYPES` entries in
`qualifications.js`). Display-only attributes (`name`, `fullName`,
`scoreRanges`, `level`, `requiredRank`, `trackScore`, `required`) are
omitted: no modelled operation reads them. -/
structure QualType where
  id : String
  category : String
  cycleType : String
  windowStart : Option MonthDay := none
  windowEnd : Option MonthDay := none
  expirationMonths : Option Int := none
  easAware : Bool := false
deriving DecidableEq

/-! The `DEFAULT_QUAL_TYPES` table (qualifications.js:24), flattened in the
source's category order (fitness, weapons, training, licenses, combat,
medical, pme). -/

def qtPft : QualType :=
  { id := "pft", category := "fitness", cycleType := "calendar_window",
    windowStart := some ⟨1, 1⟩, windowEnd := some ⟨6, 30⟩ }

def qtCft : QualType :=
  { id := "cft", category := "fitness", cycleType := "calendar_window",
    windowStart := some ⟨7, 1⟩, windowEnd := some ⟨12, 31⟩ }

def qtBca : QualType :=
  { id := "bca", category := "fitness", cycleType := "calendar_window",
    windowStart := some ⟨1, 1⟩, windowEnd := some ⟨12, 31⟩ }

def qtRifle : QualType :=
  { id := "rifle_qual", category := "weapons", cycleType := "fiscal_year" }

def qtPistol : QualType :=
  { id := "pistol_qual", category := "weapons", cycleType := "fiscal_year" }

def qtAnnualTraining : QualType :=
  { id := "annual_training", category := "training", cycleType := "fiscal_year" }

def qtCyberAwareness : QualType :=
  { id := "cyber_awareness", category := "training", cycleType := "fiscal_year" }

def qtSharp : QualType :=
  { id := "sharp", category := "training", cycleType := "fiscal_year" }

def qtSuicidePrevention : QualType :=
  { id := "suicide_prevention", category := "training", cycleType := "fiscal_year" }

def qtLicenseHmmwv : QualType :=
  { id := "license_hmmwv", category := "licenses", cycleType := "rolling",
    expirationMonths := some 48, easAware := true }

def qtLicense7Ton : QualType :=
  { id := "license_7ton", category := "licenses", cycleType := "rolling",
    expirationMonths := some 48, easAware := true }

def qtLicenseForklift : QualType :=
  { id := "license_forklift", category := "licenses", cycleType := "rolling",
    expirationMonths := some 48, easAware := true }

def qtLicenseLav : QualType :=
  { id := "license_lav", category := "licenses", cycleType := "rolling",
    expirationMonths := some 48, easAware := true }

def qtMcmapTan : QualType :=
  { id := "mcmap_tan", category := "combat", cycleType := "one_time" }

def qtMcmapGray : QualType :=
  { id := "mcmap_gray", category := "combat", cycleType := "one_time" }

def qtMcmapGreen : QualType :=
  { id := "mcmap_green", category := "combat", cycleType := "one_time" }

def qtMcmapBrown : QualType :=
  { id := "mcmap_brown", category := "combat", cycleType := "one_time" }

def qtMcmapBlack : QualType :=
  { id := "mcmap_black", category := "combat", cycleType := "one_time" }

def qtSwimQual : QualType :=
  { id := "swim_qual", category := "combat", cycleType := "rolling",
    expirationMonths := some 24 }

def qtPha : QualType :=
  { id := "pha", category := "medical", cycleType := "rolling",
    expirationMonths := some 12 }

def qtDental : QualType :=
  { id := "dental", category := "medical", cycleType := "rolling",
    expirationMonths := some 12 }

def qtHiv : QualType :=
  { id := "hiv", category := "medical", cycleType := "rolling",
    expirationMonths := some 24 }

def qtHearing : QualType :=
  { id := "hearing", category := "medical", cycleType := "fiscal_year" }

def qtCorporalCourse : QualType :=
  { id := "corporal_course", category := "pme", cycleType := "one_time" }

def qtSergeantsCourse : QualType :=
  { id := "sergeants_course", category := "pme", cycleType := "one_time" }

def qtCareerCourse : QualType :=
  { id := "career_course", category := "pme", cycleType := "one_time" }

def qtAdvancedCourse : QualType :=
  { id := "advanced_course", category := "pme", cycleType := "one_time" }

/-- Model of `getAllQualificationTypes` (qualifications.js:488): the
category lists concatenated in key order. -/
def ALL_QUAL_TYPES : List QualType :=
  [ qtPft, qtCft, qtBca,
    qtRifle, qtPistol,
    qtAnnualTraining, qtCyberAwareness, qtSharp, qtSuicidePrevention,
    qtLicenseHmmwv, qtLicense7Ton, qtLicenseForklift, qtLicenseLav,
    qtMcmapTan, qtMcmapGray, qtMcmapGreen, qtMcmapBrown, qtMcmapBlack,
    qtSwimQual,
    qtPha, qtDental, qtHiv, qtHearing,
    qtCorporalCourse, qtSergeantsCourse, qtCareerCourse, qtAdvancedCourse ]

/-- Model of `getQualificationType` (qualifications.js:499): first type with
a matching id, scanning categories in declaration order. -/
def getQualificationType (id : String) : Option QualType :=
  ALL_QUAL_TYPES.find? (fun q => q.id == id)

/-- Model of `TEEPQualifications.getFiscalYear` (qualifications.js:417):
fiscal year is `year + 1` for JS month index ≥ 9, i.e. 1-based month ≥ 10
(October, November, December). -/
def getFiscalYear (dt : Date) : Int :=
  if 10 ≤ dt.m then dt.y + 1 else dt.y

/-- Model of `TEEPQualifications.calculateExpiration` (qualifications.js:362).

* `completionDate` is `Option Date` because the import path can pass `null`;
  JS then evaluates `new Date(null)` to the Unix epoch, modelled by `getD
  epochDate`.
* `calendar_window`: the code builds `new Date(expYear, windowEnd.month - 1,
  windowEnd.day)`; for the (always well-formed) window bounds of the type
  table this is the plain triple, which the model uses directly.
* `fiscal_year`: `new Date(fy + 1, 8, 30)` is September (month index 8) 30.
* `rolling`: `expirationMonths || 12` treats both a missing and a zero
  month count as 12; `qualType.easAware && marineEas` requires a non-null
  separation date. -/
def calculateExpiration (qualType : QualType) (completionDate : Option Date)
    (marineEas : Option Date := none) : Option Date :=
  let completion := completionDate.getD epochDate
  if qualType.cycleType = "one_time" then
    none
  else if qualType.cycleType = "calendar_window" then
    let we := qualType.windowEnd.getD ⟨1, 1⟩
    let windowEnd : Date := ⟨completion.y, we.month, we.day⟩
    let expYear : Int :=
      if completion.toDays ≤ windowEnd.toDays then completion.y + 1 else completion.y + 2
    some ⟨expYear, we.month, we.day⟩
  else if qualType.cycleType = "fiscal_year" then
    some ⟨getFiscalYear completion + 1, 9, 30⟩
  else if qualType.cycleType = "rolling" then
    let em : Int :=
      match qualType.expirationMonths with
      | some n => if n = 0 then 12 else n
      | none => 12
    let expiration := addMonthsJs completion em
    match qualType.easAware, marineEas with
    | true, some eas =>
        if eas.toDays < expiration.toDays then some eas else some expiration
    | _, _ => some expiration
  else
    none

/-! ## Qualification records and status classification -/

/-- A stored qualification record (`qualifications` object store,
storage.js:44). `type` is the qualification-type id; `createdAt`/`updatedAt`
are timestamps modelled as opaque naturals. -/
structure Qualification where
  id : Nat := 0
  marineId : Nat := 0
  type : String := ""
  completionDate : Option Date := none
  expirationDate : Option Date := none
  score : Option Int := none
  source : String := ""
  createdAt : Option Nat := none
  updatedAt : Option Nat := none
deriving DecidableEq

/-- The `status` discriminant of the object returned by
`getQualificationStatus` ('missing' / 'current' / 'expiring_soon' /
'expiring' / 'expired'). -/
inductive QualStatus where
  | missing
  | current
  | expiring_soon
  | expiring
  | expired
deriving DecidableEq

/-- The current time: civil day number (days since the epoch) plus
milliseconds elapsed since that day's midnight (`0 ≤ ms < 86400000` for a
real clock reading). -/
structure Instant where
  days : Int
  ms : Int
deriving DecidableEq

def msPerDay : Int := 86400000

/-- Model of `TEEPQualifications.getQualificationStatus`
(qualifications.js:454). The stored `expirationDate` is an ISO date, so
`new Date(qualification.expirationDate)` sits at midnight (timestamp
`toDays * 86400000`), while `now`, `thirtyDaysOut` and `ninetyDaysOut`
carry the current time of day (`setDate(getDate() + k)` keeps the
time-of-day component).
The returned `label`/`class` display strings are determined by the
`status` discriminant and are elided. -/
def getQualificationStatus (q : Qualification) (now : Instant) : QualStatus :=
  match q.completionDate with
  | none => .missing
  | some _ =>
    match q.expirationDate with
    | none => .current
    | some exp =>
      let expTs := exp.toDays * msPerDay
      let nowTs := now.days * msPerDay + now.ms
      let thirtyTs := (now.days + 30) * msPerDay + now.ms
      let ninetyTs := (now.days + 90) * msPerDay + now.ms
      if expTs < nowTs then .expired
      else if expTs ≤ thirtyTs then .expiring_soon
      else if expTs ≤ ninetyTs then .expiring
      else .current

/-! ## Rank normalisation and comparison -/

/-- Shorthand: the character list underlying a string literal (JS strings
that undergo character-level processing are modelled as `List Char`). -/
def str (s : String) : List Char := s.data

/-- Model of `String.prototype.trim`: strip leading and trailing
whitespace. -/
def trimChars (cs : List Char) : List Char :=
  ((cs.dropWhile Char.isWhitespace).reverse.dropWhile Char.isWhitespace).reverse

/-- Model of `String.prototype.toUpperCase` (ASCII suffices for the rank
tables). -/
def upperChars (cs : List Char) : List Char :=
  cs.map Char.toUpper

/-- The `RANK_MAPPINGS` synonym table (qualifications.js:282), in source
order. -/
def RANK_MAPPINGS : List (List Char × List Char) :=
  [ (str "PVT", str "Pvt"), (str "PRIVATE", str "Pvt"), (str "E-1", str "Pvt"),
    (str "E1", str "Pvt"),
    (str "PFC", str "PFC"), (str "PRIVATE FIRST CLASS", str "PFC"),
    (str "E-2", str "PFC"), (str "E2", str "PFC"),
    (str "LCPL", str "LCpl"), (str "LANCE CORPORAL", str "LCpl"),
    (str "E-3", str "LCpl"), (str "E3", str "LCpl"),
    (str "CPL", str "Cpl"), (str "CORPORAL", str "Cpl"),
    (str "E-4", str "Cpl"), (str "E4", str "Cpl"),
    (str "SGT", str "Sgt"), (str "SERGEANT", str "Sgt"),
    (str "E-5", str "Sgt"), (str "E5", str "Sgt"),
    (str "SSGT", str "SSgt"), (str "STAFF SERGEANT", str "SSgt"),
    (str "E-6", str "SSgt"), (str "E6", str "SSgt"),
    (str "GYSGT", str "GySgt"), (str "GUNNERY SERGEANT", str "GySgt"),
    (str "E-7", str "GySgt"), (str "E7", str "GySgt"),
    (str "MSGT", str "MSgt"), (str "MASTER SERGEANT", str "MSgt"),
    (str "E-8", str "MSgt"), (str "E8", str "MSgt"),
    (str "FIRST SGT", str "FirstSgt"), (str "FIRST SERGEANT", str "FirstSgt"),
    (str "1STSGT", str "FirstSgt"),
    (str "MGYSGT", str "MGySgt"), (str "MASTER GUNNERY SERGEANT", str "MGySgt"),
    (str "E-9", str "MGySgt"), (str "E9", str "MGySgt"),
    (str "SGTMAJ", str "SgtMaj"), (str "SERGEANT MAJOR", str "SgtMaj"),
    (str "WO1", str "WO"), (str "WO-1", str "WO"), (str "WARRANT OFFICER", str "WO"),
    (str "CWO2", str "CWO2"), (str "CWO-2", str "CWO2"),
    (str "CHIEF WARRANT OFFICER 2", str "CWO2"),
    (str "CWO3", str "CWO3"), (str "CWO-3", str "CWO3"),
    (str "CHIEF WARRANT OFFICER 3", str "CWO3"),
    (str "CWO4", str "CWO4"), (str "CWO-4", str "CWO4"),
    (str "CHIEF WARRANT OFFICER 4", str "CWO4"),
    (str "CWO5", str "CWO5"), (str "CWO-5", str "CWO5"),
    (str "CHIEF WARRANT OFFICER 5", str "CWO5"),
    (str "2NDLT", str "2ndLt"), (str "2ND LT", str "2ndLt"),
    (str "SECOND LIEUTENANT", str "2ndLt"), (str "O-1", str "2ndLt"),
    (str "O1", str "2ndLt"),
    (str "1STLT", str "1stLt"), (str "1ST LT", str "1stLt"),
    (str "FIRST LIEUTENANT", str "1stLt"), (str "O-2", str "1stLt"),
    (str "O2", str "1stLt"),
    (str "CAPT", str "Capt"), (str "CAPTAIN", str "Capt"),
    (str "O-3", str "Capt"), (str "O3", str "Capt"),
    (str "MAJ", str "Maj"), (str "MAJOR", str "Maj"),
    (str "O-4", str "Maj"), (str "O4", str "Maj"),
    (str "LTCOL", str "LtCol"), (str "LT COL", str "LtCol"),
    (str "LIEUTENANT COLONEL", str "LtCol"), (str "O-5", str "LtCol"),
    (str "O5", str "LtCol"),
    (str "COL", str "Col"), (str "COLONEL", str "Col"),
    (str "O-6", str "Col"), (str "O6", str "Col") ]

/-- The `RANK_ORDER` total-order list (qualifications.js:315). -/
def RANK_ORDER : List (List Char) :=
  [ str "Pvt", str "PFC", str "LCpl", str "Cpl", str "Sgt", str "SSgt",
    str "GySgt", str "MSgt", str "FirstSgt", str "MGySgt", str "SgtMaj",
    str "WO", str "CWO2", str "CWO3", str "CWO4", str "CWO5",
    str "2ndLt", str "1stLt", str "Capt", str "Maj", str "LtCol", str "Col" ]

/-- Model of `TEEPQualifications.normalizeRank` (qualifications.js:324):
the empty string (the only falsy string) yields `''`; otherwise look up
`rank.toUpperCase().trim()` in the synonym table; otherwise return the
input unchanged (whether or not it is already canonical — the
`RANK_ORDER.includes(rank)` branch also returns `rank`). -/
def normalizeRank (rank : List Char) : List Char :=
  if rank = [] then []
  else
    let upperRank := trimChars (upperChars rank)
    match RANK_MAPPINGS.find? (fun p => p.1 == upperRank) with
    | some p => p.2
    | none => if RANK_ORDER.contains rank then rank else rank

/-- Model of `Array.prototype.indexOf`: index of the first occurrence, or
`-1`. -/
def jsIndexOf (l : List (List Char)) (x : List Char) : Int :=
  match l with
  | [] => -1
  | a :: rest =>
    if a = x then 0
    else
      let r := jsIndexOf rest x
      if r = -1 then -1 else r + 1

/-- The sort key `compareRanks` derives for a rank string: its index in
`RANK_ORDER` after normalisation, with unknown ranks mapped to 999. -/
def rankOrderKey (rank : List Char) : Int :=
  let idx := jsIndexOf RANK_ORDER (normalizeRank rank)
  if idx = -1 then 999 else idx

/-- Model of `TEEPQualifications.compareRanks` (qualifications.js:345). -/
def compareRanks (rankA rankB : List Char) : Int :=
  rankOrderKey rankA - rankOrderKey rankB

example : normalizeRank (str "corporal") = str "Cpl" := by decide
example : compareRanks (str "SGT") (str "Cpl") = 1 := by decide
example : compareRanks (str "Cpl") (str "Commodore") = 3 - 999 := by decide

/-! ## Arithmetic helpers for timestamp comparisons -/

/-- Comparing a midnight timestamp `a * N` with an instant `b * N + r`
(`0 ≤ r < N`): strictly earlier iff the day is earlier, or the days are
equal and the instant is past midnight. -/
lemma mul_add_lt_iff (a b r N : Int) (hN : 0 < N) (h0 : 0 ≤ r) (hr : r < N) :
    a * N < b * N + r ↔ a < b ∨ (a = b ∧ 0 < r) := by
  constructor
  · intro h
    rcases lt_trichotomy a b with hab | hab | hab
    · exact Or.inl hab
    · refine Or.inr ⟨hab, ?_⟩
      subst hab
      linarith
    · exfalso
      have h1 : b + 1 ≤ a := hab
      have h2 : (b + 1) * N ≤ a * N :=
        mul_le_mul_of_nonneg_right h1 (le_of_lt hN)
      nlinarith
  · rintro (hab | ⟨hab, hr0⟩)
    · have h1 : a + 1 ≤ b := hab
      have h2 : (a + 1) * N ≤ b * N :=
        mul_le_mul_of_nonneg_right h1 (le_of_lt hN)
      nlinarith
    · subst hab
      linarith

/-- A midnight timestamp `a * N` is at or before the instant `b * N + r`
(`0 ≤ r < N`) iff the day `a` is at or before day `b`. -/
lemma mul_add_le_iff (a b r N : Int) (hN : 0 < N) (h0 : 0 ≤ r) (hr : r < N) :
    a * N ≤ b * N + r ↔ a ≤ b := by
  constructor
  · intro h
    by_contra hab
    have h1 : b + 1 ≤ a := by omega
    have h2 : (b + 1) * N ≤ a * N :=
      mul_le_mul_of_nonneg_right h1 (le_of_lt hN)
    nlinarith
  · intro hab
    have h2 : a * N ≤ b * N := mul_le_mul_of_nonneg_right hab (le_of_lt hN)
    linarith

/-! ## Claims about the expiration engine -/

/-- C1: for every CalendarWindow qualification type and every completion
date, `calculateExpiration` returns the window-end date of the completion
year plus one when the completion is on or before the window end of the
completion year, and of the completion year plus two otherwise; with
`windowEnd = {6, 30}`, completion 2024-03-15 yields 2025-06-30 and
completion 2024-09-01 yields 2026-06-30. -/
theorem calendarWindow_expiration :
    (∀ (qt : QualType) (we : MonthDay) (completion : Date) (eas : Option Date),
      qt.cycleType = "calendar_window" → qt.windowEnd = some we →
      calculateExpiration qt (some completion) eas =
        some (if completion.toDays ≤ (Date.mk completion.y we.month we.day).toDays
              then ⟨completion.y + 1, we.month, we.day⟩
              else ⟨completion.y + 2, we.month, we.day⟩))
    ∧ calculateExpiration qtPft (some ⟨2024, 3, 15⟩) none = some ⟨2025, 6, 30⟩
    ∧ calculateExpiration qtPft (some ⟨2024, 9, 1⟩) none = some ⟨2026, 6, 30⟩ := by
  refine ⟨?_, by decide, by decide⟩
  intro qt we completion eas hcy hwe
  simp only [calculateExpiration, hcy, hwe]
  norm_num
  split <;> simp

/-- Witness for `calendarWindow_expiration` at the claim's first scenario. -/
theorem calendarWindow_expiration_witness :
    calculateExpiration qtPft (some ⟨2024, 3, 15⟩) none = some ⟨2025, 6, 30⟩ :=
  (calendarWindow_expiration.1 qtPft ⟨6, 30⟩ ⟨2024, 3, 15⟩ none rfl rfl).trans (by decide)

/-- C2: for every Rolling, easAware qualification type with a non-zero
month count and every non-null separation date, `calculateExpiration`
returns the separation date when it is strictly earlier than the
completion date plus `expirationMonths` calendar months, and the shifted
completion date otherwise; with 48 months, completion 2024-01-10 (shifted:
2028-01-10) and separation 2025-06-01, it returns 2025-06-01. -/
theorem rolling_easAware_expiration :
    (∀ (qt : QualType) (em : Int) (completion eas : Date),
      qt.cycleType = "rolling" → qt.easAware = true →
      qt.expirationMonths = some em → em ≠ 0 →
      calculateExpiration qt (some completion) (some eas) =
        some (if eas.toDays < (addMonthsJs completion em).toDays then eas
              else addMonthsJs completion em))
    ∧ addMonthsJs ⟨2024, 1, 10⟩ 48 = ⟨2028, 1, 10⟩
    ∧ calculateExpiration qtLicenseHmmwv
        (some ⟨2024, 1, 10⟩) (some ⟨2025, 6, 1⟩) = some ⟨2025, 6, 1⟩ := by
  refine ⟨?_, by decide, by decide⟩
  intro qt em completion eas hcy hea hem hne
  simp [calculateExpiration, hcy, hea, hem, hne]
  split <;> simp

/-- Witness for `rolling_easAware_expiration` at the claim's scenario. -/
theorem rolling_easAware_expiration_witness :
    calculateExpiration qtLicenseHmmwv
        (some ⟨2024, 1, 10⟩) (some ⟨2025, 6, 1⟩) = some ⟨2025, 6, 1⟩ :=
  (rolling_easAware_expiration.1 qtLicenseHmmwv 48 ⟨2024, 1, 10⟩ ⟨2025, 6, 1⟩ rfl rfl rfl
    (by decide)).trans (by decide)

/-- C3: the fiscal year of a date is the calendar year plus one exactly for
October–December, and for every FiscalYear qualification type the
expiration is September 30 of the fiscal year after the completion's
fiscal year; completion 2024-11-15 has fiscal year 2025 and expires
2026-09-30. -/
theorem fiscalYear_expiration :
    (∀ dt : Date, 1 ≤ dt.m → dt.m ≤ 12 →
      getFiscalYear dt =
        if dt.m = 10 ∨ dt.m = 11 ∨ dt.m = 12 then dt.y + 1 else dt.y)
    ∧ (∀ (qt : QualType) (completion : Date) (eas : Option Date),
      qt.cycleType = "fiscal_year" →
      calculateExpiration qt (some completion) eas =
        some ⟨getFiscalYear completion + 1, 9, 30⟩)
    ∧ getFiscalYear ⟨2024, 11, 15⟩ = 2025
    ∧ calculateExpiration qtRifle (some ⟨2024, 11, 15⟩) none = some ⟨2026, 9, 30⟩ := by
  refine ⟨?_, ?_, by decide, by decide⟩
  · intro dt h1 h2
    simp only [getFiscalYear]
    split_ifs <;> omega
  · intro qt completion eas hcy
    simp [calculateExpiration, hcy]

/-- Witness for `fiscalYear_expiration` at the claim's scenario. -/
theorem fiscalYear_expiration_witness :
    getFiscalYear ⟨2024, 11, 15⟩ =
      (if (11 : Int) = 10 ∨ (11 : Int) = 11 ∨ (11 : Int) = 12 then 2024 + 1 else 2024) :=
  fiscalYear_expiration.1 ⟨2024, 11, 15⟩ (by decide) (by decide)

/-- C10: a Rolling qualification type whose `expirationMonths` is absent or
zero behaves exactly like one with `expirationMonths = 12`: the expiration
is the completion date plus 12 calendar months, still subject to the
easAware separation-date cap. -/
theorem rolling_default_twelve_months :
    ∀ (qt : QualType) (completion : Date) (eas : Option Date),
      qt.cycleType = "rolling" →
      (qt.expirationMonths = none ∨ qt.expirationMonths = some 0) →
      calculateExpiration qt (some completion) eas =
        (let expiration := addMonthsJs completion 12
         match qt.easAware, eas with
         | true, some e =>
             if e.toDays < expiration.toDays then some e else some expiration
         | _, _ => some expiration) := by
  intro qt completion eas hcy hem
  rcases hem with hem | hem <;> simp [calculateExpiration, hcy, hem] <;> rfl

/-- A custom rolling qualification type with no `expirationMonths`
attribute, for exercising the 12-month fallback. -/
def qtRollingDefault : QualType :=
  { id := "custom_rolling", category := "custom", cycleType := "rolling" }

/-- Witness for `rolling_default_twelve_months`: a rolling type with no
`expirationMonths` shifts 2024-05-05 to 2025-05-05. -/
theorem rolling_default_twelve_months_witness :
    calculateExpiration qtRollingDefault (some ⟨2024, 5, 5⟩) none = some ⟨2025, 5, 5⟩ :=
  (rolling_default_twelve_months qtRollingDefault ⟨2024, 5, 5⟩ none rfl
    (Or.inl rfl)).trans (by decide)

/-- C4 (amended): for a qualification with a completion date and a non-null
expiration date, the classification is total and mutually exclusive, the
30- and 90-day boundaries behave as inclusive date-only comparisons, but
the Expired test compares the expiration date's midnight against the full
current instant: on the expiration day itself the code reports Expired
whenever the clock is past midnight (a date-only comparison would not). -/
theorem qualification_status_classification :
    ∀ (c e : Date) (now : Instant), 0 ≤ now.ms → now.ms < msPerDay →
      (getQualificationStatus
          { completionDate := some c, expirationDate := some e } now = .expired
        ↔ e.toDays < now.days ∨ (e.toDays = now.days ∧ 0 < now.ms))
      ∧ (getQualificationStatus
          { completionDate := some c, expirationDate := some e } now = .expiring_soon
        ↔ ¬(e.toDays < now.days ∨ (e.toDays = now.days ∧ 0 < now.ms))
          ∧ e.toDays ≤ now.days + 30)
      ∧ (getQualificationStatus
          { completionDate := some c, expirationDate := some e } now = .expiring
        ↔ ¬(e.toDays < now.days ∨ (e.toDays = now.days ∧ 0 < now.ms))
          ∧ ¬(e.toDays ≤ now.days + 30) ∧ e.toDays ≤ now.days + 90)
      ∧ (getQualificationStatus
          { completionDate := some c, expirationDate := some e } now = .current
        ↔ ¬(e.toDays < now.days ∨ (e.toDays = now.days ∧ 0 < now.ms))
          ∧ ¬(e.toDays ≤ now.days + 30) ∧ ¬(e.toDays ≤ now.days + 90))
      ∧ (getQualificationStatus
          { completionDate := some c, expirationDate := some e } now = .expired
        ∨ getQualificationStatus
          { completionDate := some c, expirationDate := some e } now = .expiring_soon
        ∨ getQualificationStatus
          { completionDate := some c, expirationDate := some e } now = .expiring
        ∨ getQualificationStatus
          { completionDate := some c, expirationDate := some e } now = .current) := by
  intro c e now h0 hms
  have hN : (0 : Int) < msPerDay := by decide
  have hlt := mul_add_lt_iff e.toDays now.days now.ms msPerDay hN h0 hms
  have h30 := mul_add_le_iff e.toDays (now.days + 30) now.ms msPerDay hN h0 hms
  have h90 := mul_add_le_iff e.toDays (now.days + 90) now.ms msPerDay hN h0 hms
  simp only [getQualificationStatus]
  split_ifs with h1 h2 h3 <;> simp_all

/-- Witness for `qualification_status_classification` at a concrete instant
(noon of 2024-06-02, expiration 2024-06-01, one day past). -/
theorem qualification_status_classification_witness :
    getQualificationStatus
        { completionDate := some ⟨2024, 1, 1⟩, expirationDate := some ⟨2024, 6, 1⟩ }
        ⟨(Date.mk 2024 6 2).toDays, 43200000⟩ = .expired ↔
      (Date.mk 2024 6 1).toDays < (Date.mk 2024 6 2).toDays ∨
        ((Date.mk 2024 6 1).toDays = (Date.mk 2024 6 2).toDays ∧
          (0 : Int) < 43200000) :=
  (qualification_status_classification ⟨2024, 1, 1⟩ ⟨2024, 6, 1⟩
    ⟨(Date.mk 2024 6 2).toDays, 43200000⟩ (by decide) (by decide)).1

/-- C4 counterexample to the claim as stated: on the expiration day itself
(noon), the code classifies the qualification Expired although the
date-only comparison 'expirationDate < now' is false (the claim's
date-only rule would classify it ExpiringUrgent instead). -/
theorem qualification_status_not_date_only :
    getQualificationStatus
        { completionDate := some ⟨2024, 1, 1⟩, expirationDate := some ⟨2024, 6, 1⟩ }
        ⟨(Date.mk 2024 6 1).toDays, 43200000⟩ = .expired
    ∧ ¬((Date.mk 2024 6 1).toDays < (Date.mk 2024 6 1).toDays)
    ∧ (Date.mk 2024 6 1).toDays ≤ (Date.mk 2024 6 1).toDays + 30 := by
  refine ⟨by decide, by omega, by omega⟩

/-! ## Claims about the rank comparator -/

/-- `jsIndexOf` is `-1` or a position within the list. -/
lemma jsIndexOf_bounds (l : List (List Char)) (x : List Char) :
    jsIndexOf l x = -1 ∨ (0 ≤ jsIndexOf l x ∧ jsIndexOf l x < l.length) := by
  induction l with
  | nil => simp [jsIndexOf]
  | cons a rest ih =>
    simp only [jsIndexOf]
    by_cases hax : a = x
    · simp [hax]
    · simp only [if_neg hax, List.length_cons]
      rcases ih with h | ⟨h1, h2⟩
      · simp [h]
      · have hne : jsIndexOf rest x ≠ -1 := by omega
        simp only [if_neg hne]
        right
        refine ⟨by omega, ?_⟩
        push_cast
        omega

/-- `jsIndexOf` returns `-1` exactly for absent elements. -/
lemma jsIndexOf_eq_neg_one_iff (l : List (List Char)) (x : List Char) :
    jsIndexOf l x = -1 ↔ x ∉ l := by
  induction l with
  | nil => simp [jsIndexOf]
  | cons a rest ih =>
    simp only [jsIndexOf]
    by_cases hax : a = x
    · simp [hax]
    · simp only [if_neg hax]
      by_cases hr : jsIndexOf rest x = -1
      · simp [hr, ih.mp hr, Ne.symm hax]
      · have hx : x ∈ rest := by
          by_contra hxm
          exact hr (ih.mpr hxm)
        have hpos : 0 ≤ jsIndexOf rest x := by
          rcases jsIndexOf_bounds rest x with h | ⟨h1, _⟩
          · exact absurd h hr
          · exact h1
        simp [hr, hx]
        omega

/-- C9: `compareRanks` is a valid comparator — antisymmetric (opposite
signs, zero with zero) and transitive; any two ranks that normalise into
`RANK_ORDER` are ordered by their positions in that list; and every
unknown rank sorts after every known rank in both comparison
directions. -/
theorem compareRanks_comparator :
    (∀ a b, (compareRanks a b < 0 ↔ 0 < compareRanks b a)
          ∧ (compareRanks a b = 0 ↔ compareRanks b a = 0))
    ∧ (∀ a b c, compareRanks a b < 0 → compareRanks b c < 0 → compareRanks a c < 0)
    ∧ (∀ a b, normalizeRank a ∈ RANK_ORDER → normalizeRank b ∈ RANK_ORDER →
        (compareRanks a b < 0 ↔
          jsIndexOf RANK_ORDER (normalizeRank a) < jsIndexOf RANK_ORDER (normalizeRank b)))
    ∧ (∀ a b, normalizeRank a ∈ RANK_ORDER → normalizeRank b ∉ RANK_ORDER →
        compareRanks a b < 0 ∧ 0 < compareRanks b a) := by
  have hkey_known : ∀ r, normalizeRank r ∈ RANK_ORDER →
      rankOrderKey r = jsIndexOf RANK_ORDER (normalizeRank r) ∧
        0 ≤ rankOrderKey r ∧ rankOrderKey r < 22 := by
    intro r hr
    have hne : jsIndexOf RANK_ORDER (normalizeRank r) ≠ -1 := by
      intro h
      exact ((jsIndexOf_eq_neg_one_iff _ _).mp h) hr
    have hb := jsIndexOf_bounds RANK_ORDER (normalizeRank r)
    have hlen : (RANK_ORDER.length : Int) = 22 := by decide
    rcases hb with h | ⟨h1, h2⟩
    · exact absurd h hne
    · refine ⟨by simp [rankOrderKey, hne], ?_, ?_⟩ <;>
        simp only [rankOrderKey, if_neg hne] <;> omega
  have hkey_unknown : ∀ r, normalizeRank r ∉ RANK_ORDER → rankOrderKey r = 999 := by
    intro r hr
    have h : jsIndexOf RANK_ORDER (normalizeRank r) = -1 :=
      (jsIndexOf_eq_neg_one_iff _ _).mpr hr
    simp [rankOrderKey, h]
  refine ⟨?_, ?_, ?_, ?_⟩
  · intro a b
    constructor <;> simp only [compareRanks] <;> omega
  · intro a b c
    simp only [compareRanks]
    omega
  · intro a b ha hb
    obtain ⟨hA, _, _⟩ := hkey_known a ha
    obtain ⟨hB, _, _⟩ := hkey_known b hb
    simp only [compareRanks, hA, hB]
    omega
  · intro a b ha hb
    obtain ⟨_, hA1, hA2⟩ := hkey_known a ha
    have hB := hkey_unknown b hb
    simp only [compareRanks, hB]
    omega

/-- Witness for `compareRanks_comparator`: 'Cpl' is known, 'Commodore' is
unknown, and the unknown rank sorts after in both directions. -/
theorem compareRanks_comparator_witness :
    compareRanks (str "Cpl") (str "Commodore") < 0 ∧
      0 < compareRanks (str "Commodore") (str "Cpl") :=
  compareRanks_comparator.2.2.2 (str "Cpl") (str "Commodore") (by decide) (by decide)

/-! ## Date parsing (import.js) -/

/-- A raw spreadsheet cell value, as seen by `parseDate` / `transformRow`:
a JS string (as characters), a number (Excel serial date), a `Date`
object, or `undefined` (missing cell). -/
inductive RawValue where
  | undefVal
  | strVal (cs : List Char)
  | numVal (n : Int)
  | dateVal (dt : Date)
deriving DecidableEq

/-- Host-environment behaviour the repository calls but does not define:
the JS engine's generic `new Date(string)` fallback parser (`none` models
an Invalid Date) and `String(dateObject)` printing. -/
structure JsHost where
  nativeParseDate : List Char → Option Date
  printDate : Date → List Char

/-- A concrete host whose fallback parser rejects everything and whose
date printing is empty; used to instantiate closed scenarios that never
reach the fallback. -/
def nullHost : JsHost := ⟨fun _ => none, fun _ => []⟩

/-- Numeric value of a list of ASCII digits (the `Number`/`parseInt`
coercion the code applies to regex capture groups of digits). -/
def natOfDigits (l : List Char) : Nat :=
  l.foldl (fun acc c => acc * 10 + (c.toNat - 48)) 0

/-- Model of `String.prototype.split` on a single separator character. -/
def splitOnChar (sep : Char) : List Char → List (List Char)
  | [] => [[]]
  | c :: rest =>
    let r := splitOnChar sep rest
    if c = sep then [] :: r
    else
      match r with
      | [] => [[c]]
      | h :: t => (c :: h) :: t

/-- `\d{1}` or `\d{2}`: one or two ASCII digits. -/
def digitsLen12 (l : List Char) : Bool :=
  (l.length == 1 || l.length == 2) && l.all Char.isDigit

/-- `\d{n}`: exactly `n` ASCII digits. -/
def digitsLenEq (n : Nat) (l : List Char) : Bool :=
  l.length == n && l.all Char.isDigit

/-- The regex `^(\d{4})-(\d{1,2})-(\d{1,2})$` (ISO dates), returning the
numeric capture groups. -/
def matchISO (s : List Char) : Option (Int × Int × Int) :=
  match splitOnChar '-' s with
  | [a, b, c] =>
    if digitsLenEq 4 a && digitsLen12 b && digitsLen12 c then
      some ((natOfDigits a : Int), (natOfDigits b : Int), (natOfDigits c : Int))
    else none
  | _ => none

/-- The regex `^(\d{1,2})/(\d{1,2})/(\d{4})$` (US `MM/DD/YYYY`). -/
def matchSlash4 (s : List Char) : Option (Int × Int × Int) :=
  match splitOnChar '/' s with
  | [a, b, c] =>
    if digitsLen12 a && digitsLen12 b && digitsLenEq 4 c then
      some ((natOfDigits a : Int), (natOfDigits b : Int), (natOfDigits c : Int))
    else none
  | _ => none

/-- The regex `^(\d{1,2})/(\d{1,2})/(\d{2})$` (US short `MM/DD/YY`). -/
def matchSlash2 (s : List Char) : Option (Int × Int × Int) :=
  match splitOnChar '/' s with
  | [a, b, c] =>
    if digitsLen12 a && digitsLen12 b && digitsLenEq 2 c then
      some ((natOfDigits a : Int), (natOfDigits b : Int), (natOfDigits c : Int))
    else none
  | _ => none

/-- The `months` three-letter-abbreviation table of `parseDate`
(import.js:407), with 0-based month indices as in the source. -/
def MONTHS : List (List Char × Int) :=
  [ (str "JAN", 0), (str "FEB", 1), (str "MAR", 2), (str "APR", 3),
    (str "MAY", 4), (str "JUN", 5), (str "JUL", 6), (str "AUG", 7),
    (str "SEP", 8), (str "OCT", 9), (str "NOV", 10), (str "DEC", 11) ]

/-- Shared handling of a military-format match `(\d{1,2}) ([A-Za-z]{3})
(\d{4})`: look the letters up in the month table; an unknown month
abbreviation behaves as if the format had not matched (the code then falls
through to the native parser). Returns `(day, monthIndex, year)`. -/
def militaryParts (ds ls ys : List Char) : Option (Int × Int × Int) :=
  if digitsLen12 ds && (ls.length == 3 && ls.all Char.isAlpha) && digitsLenEq 4 ys then
    match MONTHS.find? (fun p => p.1 == upperChars ls) with
    | some p => some ((natOfDigits ds : Int), p.2, (natOfDigits ys : Int))
    | none => none
  else none

/-- The regexes `^(\d{1,2})([A-Za-z]{3})(\d{4})$` and
`^(\d{1,2})\s+([A-Za-z]{3})\s+(\d{4})$` (military `15JAN2024` /
`15 JAN 2024`; inner separators modelled as spaces). -/
def matchMilitary (s : List Char) : Option (Int × Int × Int) :=
  let ds := s.takeWhile Char.isDigit
  let rest := s.drop ds.length
  let ls := rest.takeWhile Char.isAlpha
  let ys := rest.drop ls.length
  match militaryParts ds ls ys with
  | some r => some r
  | none =>
    match (splitOnChar ' ' s).filter (fun l => !l.isEmpty) with
    | [ds', ls', ys'] => militaryParts ds' ls' ys'
    | _ => none

/-- The century resolution of the `MM/DD/YY` branch (import.js:429):
`year > 50 ? 1900 + year : 2000 + year`. -/
def resolveTwoDigitYear (yy : Int) : Int :=
  if 50 < yy then 1900 + yy else 2000 + yy

/-- Model of the string portion of `TEEPImport.parseDate` (import.js:391):
try the anchored formats in order on the trimmed string, then fall back to
the host's native `new Date(string)` parser. Each successful format
constructs `new Date(year, month0, day)` (the code then serialises it with
`toISOString`, which the model elides: the constructed `Date` value *is*
the calendar date of that ISO string under the UTC-host assumption). -/
def parseDateStr (host : JsHost) (s : List Char) : Option Date :=
  match matchISO s with
  | some (y, mo, d) => some (mkJsDate y (mo - 1) d)
  | none =>
    match matchSlash4 s with
    | some (mo, d, y) => some (mkJsDate y (mo - 1) d)
    | none =>
      match matchSlash2 s with
      | some (mo, d, yy) =>
        some (mkJsDate (resolveTwoDigitYear yy) (mo - 1) d)
      | none =>
        match matchMilitary s with
        | some (d, mo0, y) => some (mkJsDate y mo0 d)
        | none => host.nativeParseDate s

/-- Model of `TEEPImport.parseDate` (import.js:377). `if (!value) return
null` catches `undefined`, `null`, the empty string and the number 0; a
`Date` object passes through; a non-zero number is an Excel serial date
(`(value - 25569) * 86400 * 1000` milliseconds since the epoch); a
non-empty string is trimmed and matched against the known formats. -/
def parseDate (host : JsHost) : RawValue → Option Date
  | .undefVal => none
  | .dateVal dt => some dt
  | .numVal n => if n = 0 then none else some (Date.fromDays (n - 25569))
  | .strVal cs =>
    if cs = [] then none
    else parseDateStr host (trimChars cs)

example : parseDate nullHost (.strVal (str "2024-01-15")) = some ⟨2024, 1, 15⟩ := by decide
example : parseDate nullHost (.strVal (str "1/15/2024")) = some ⟨2024, 1, 15⟩ := by decide
example : parseDate nullHost (.strVal (str "15JAN2024")) = some ⟨2024, 1, 15⟩ := by decide
example : parseDate nullHost (.strVal (str "15 JAN 2024")) = some ⟨2024, 1, 15⟩ := by decide
example : parseDate nullHost (.strVal (str "garbage")) = none := by decide
example : parseDate nullHost (.numVal 45306) = some ⟨2024, 1, 15⟩ := by decide

/-! Helper lemmas for the `MM/DD/YY` theorem. -/

lemma dropWhile_eq_self_of_forall (p : Char → Bool) (l : List Char)
    (h : ∀ c ∈ l, p c = false) : l.dropWhile p = l := by
  cases l with
  | nil => rfl
  | cons a rest =>
    rw [List.dropWhile_cons, h a (List.mem_cons_self a rest)]
    simp

lemma trimChars_eq_self (cs : List Char)
    (h : ∀ c ∈ cs, c.isWhitespace = false) : trimChars cs = cs := by
  unfold trimChars
  rw [dropWhile_eq_self_of_forall _ _ h,
    dropWhile_eq_self_of_forall _ _ (fun c hc => h c (List.mem_reverse.mp hc)),
    List.reverse_reverse]

lemma splitOnChar_of_not_mem (sep : Char) (l : List Char) (h : sep ∉ l) :
    splitOnChar sep l = [l] := by
  induction l with
  | nil => rfl
  | cons c rest ih =>
    have hc : ¬c = sep := fun hcs => h (hcs ▸ List.mem_cons_self c rest)
    have hr : sep ∉ rest := fun hm => h (List.mem_cons_of_mem c hm)
    simp only [splitOnChar, if_neg hc, ih hr]

lemma splitOnChar_append (sep : Char) (a rest : List Char) (ha : sep ∉ a) :
    splitOnChar sep (a ++ sep :: rest) = a :: splitOnChar sep rest := by
  induction a with
  | nil => simp [splitOnChar]
  | cons c a' ih =>
    have hc : ¬c = sep := fun hcs => ha (hcs ▸ List.mem_cons_self c a')
    have ha' : sep ∉ a' := fun hm => ha (List.mem_cons_of_mem c hm)
    simp only [List.cons_append, splitOnChar, if_neg hc, List.append_eq, ih ha']

lemma isDigit_not_whitespace (c : Char) (h : c.isDigit = true) :
    c.isWhitespace = false := by
  by_contra hw
  have hw' : c.isWhitespace = true := by
    cases hxx : c.isWhitespace with
    | false => exact absurd hxx hw
    | true => rfl
  have hd := hw'
  simp only [Char.isWhitespace, Bool.or_eq_true, decide_eq_true_eq] at hd
  rcases hd with ((rfl | rfl) | rfl) | rfl <;> exact absurd h (by decide)

lemma not_mem_of_all_digit (sep : Char) (l : List Char)
    (hl : l.all Char.isDigit = true) (hsep : sep.isDigit = false) : sep ∉ l := by
  intro hm
  have := (List.all_eq_true.mp hl) sep hm
  rw [hsep] at this
  exact Bool.false_ne_true this

/-- C8 (amended): `parseDate` on a `MM/DD/YY` string resolves the century
with the boundary at 50 exclusive — `YY > 50` maps to `1900 + YY` and
`YY ≤ 50` maps to `2000 + YY` (so `01/15/51` parses to 1951-01-15,
`01/15/49` to 2049-01-15, and the boundary value `01/15/50` to
2050-01-15, not 1950). -/
theorem parseDate_two_digit_year :
    (∀ (host : JsHost) (a b c : List Char),
      (a.length = 1 ∨ a.length = 2) → a.all Char.isDigit = true →
      (b.length = 1 ∨ b.length = 2) → b.all Char.isDigit = true →
      c.length = 2 → c.all Char.isDigit = true →
      parseDate host (.strVal (a ++ '/' :: (b ++ '/' :: c))) =
        some (mkJsDate (resolveTwoDigitYear (natOfDigits c))
          ((natOfDigits a : Int) - 1) (natOfDigits b)))
    ∧ parseDate nullHost (.strVal (str "01/15/51")) = some ⟨1951, 1, 15⟩
    ∧ parseDate nullHost (.strVal (str "01/15/49")) = some ⟨2049, 1, 15⟩
    ∧ parseDate nullHost (.strVal (str "01/15/50")) = some ⟨2050, 1, 15⟩ := by
  refine ⟨?_, by decide, by decide, by decide⟩
  intro host a b c ha1 ha2 hb1 hb2 hc1 hc2
  have hslash : ('/' : Char).isDigit = false := by decide
  have hdash : ('-' : Char).isDigit = false := by decide
  have hsa : '/' ∉ a := not_mem_of_all_digit _ _ ha2 hslash
  have hsb : '/' ∉ b := not_mem_of_all_digit _ _ hb2 hslash
  have hsc : '/' ∉ c := not_mem_of_all_digit _ _ hc2 hslash
  have hsplit : splitOnChar '/' (a ++ '/' :: (b ++ '/' :: c)) = [a, b, c] := by
    rw [splitOnChar_append '/' a _ hsa, splitOnChar_append '/' b _ hsb,
      splitOnChar_of_not_mem '/' c hsc]
  have hmem : ∀ ch ∈ a ++ '/' :: (b ++ '/' :: c), ch.isDigit = true ∨ ch = '/' := by
    intro ch hch
    rcases List.mem_append.mp hch with h | h
    · exact Or.inl ((List.all_eq_true.mp ha2) ch h)
    · rcases List.mem_cons.mp h with h | h
      · exact Or.inr h
      · rcases List.mem_append.mp h with h | h
        · exact Or.inl ((List.all_eq_true.mp hb2) ch h)
        · rcases List.mem_cons.mp h with h | h
          · exact Or.inr h
          · exact Or.inl ((List.all_eq_true.mp hc2) ch h)
  have hnows : ∀ ch ∈ a ++ '/' :: (b ++ '/' :: c), ch.isWhitespace = false := by
    intro ch hch
    rcases hmem ch hch with h | rfl
    · exact isDigit_not_whitespace ch h
    · decide
  have hnodash : ('-' : Char) ∉ a ++ '/' :: (b ++ '/' :: c) := by
    intro hm
    rcases hmem '-' hm with h | h
    · rw [hdash] at h
      exact Bool.false_ne_true h
    · exact absurd h (by decide)
  have hne : a ++ '/' :: (b ++ '/' :: c) ≠ [] := by
    cases a <;> simp
  have hlen12a : (a.length == 1 || a.length == 2) = true := by
    rcases ha1 with h | h <;> simp [h]
  have hlen12b : (b.length == 1 || b.length == 2) = true := by
    rcases hb1 with h | h <;> simp [h]
  have hstep : parseDate host (.strVal (a ++ '/' :: (b ++ '/' :: c))) =
      parseDateStr host (trimChars (a ++ '/' :: (b ++ '/' :: c))) := by
    simp only [parseDate]
    exact if_neg hne
  have hiso : matchISO (a ++ '/' :: (b ++ '/' :: c)) = none := by
    rw [matchISO, splitOnChar_of_not_mem '-' _ hnodash]
  have hus4 : matchSlash4 (a ++ '/' :: (b ++ '/' :: c)) = none := by
    rw [matchSlash4, hsplit]
    have : digitsLenEq 4 c = false := by
      simp [digitsLenEq, hc1]
    simp [this]
  have hus2 : matchSlash2 (a ++ '/' :: (b ++ '/' :: c)) =
      some ((natOfDigits a : Int), (natOfDigits b : Int), (natOfDigits c : Int)) := by
    rw [matchSlash2, hsplit]
    have h2 : digitsLenEq 2 c = true := by
      simp [digitsLenEq, hc1, hc2]
    simp [digitsLen12, hlen12a, hlen12b, ha2, hb2, h2]
  rw [hstep, trimChars_eq_self _ hnows]
  simp only [parseDateStr, hiso, hus4, hus2]

/-- Witness for `parseDate_two_digit_year` at '01/15/51'. -/
theorem parseDate_two_digit_year_witness :
    parseDate nullHost (.strVal (str "01" ++ '/' :: (str "15" ++ '/' :: str "51"))) =
      some (mkJsDate (resolveTwoDigitYear (natOfDigits (str "51")))
        ((natOfDigits (str "01") : Int) - 1) (natOfDigits (str "15"))) :=
  parseDate_two_digit_year.1 nullHost (str "01") (str "15") (str "51")
    (by decide) (by decide) (by decide) (by decide) (by decide) (by decide)

/-- C8 counterexample to the claim as stated: the claim maps `YY = 50` to
1950, but the code's boundary is strict (`year > 50`), so '01/15/50'
parses to 2050-01-15. -/
theorem parseDate_yy50_counterexample :
    parseDate nullHost (.strVal (str "01/15/50")) = some ⟨2050, 1, 15⟩ ∧
      (Date.mk 2050 1 15) ≠ ⟨1950, 1, 15⟩ := by
  refine ⟨by decide, by decide⟩

/-! ## Store model (storage.js) -/

/-- A stored person record (`marines` object store, storage.js:34). The
unique-index key `edipi` and the expiration-relevant `eas` are explicit;
all remaining person fields (names, rank, MOS, section, contact fields,
notes) are carried opaquely in `payload` — no modelled operation reads
them. -/
structure Marine where
  id : Nat := 0
  edipi : List Char := []
  eas : Option Date := none
  payload : String := ""
  status : Option String := none
  createdAt : Option Nat := none
  updatedAt : Option Nat := none
deriving DecidableEq

/-- An `importHistory` entry (aggregate counts only, as logged by the
bulk-import routines). -/
structure ImportLogEntry where
  type : String := ""
  qualificationType : String := ""
  source : String := ""
  total : Nat := 0
  added : Nat := 0
  updated : Nat := 0
  skipped : Nat := 0
  errorCount : Nat := 0
deriving DecidableEq

/-- The IndexedDB database: one list per object store plus the
auto-increment counters of the keyed stores. -/
structure Store where
  marines : List Marine := []
  quals : List Qualification := []
  qualTypes : List QualType := []
  settings : List (String × String) := []
  importHistory : List ImportLogEntry := []
  nextMarineId : Nat := 1
  nextQualId : Nat := 1
deriving DecidableEq

def emptyStore : Store := {}

/-- Model of `TEEPStorage.addMarine` (storage.js:89): assign the next
auto-increment id, keep `createdAt` when present (`marine.createdAt ||
now`), overwrite `updatedAt` with the current time, default `status` to
'present'. Callers that re-add an exported record delete its old `id`
first, so the model always assigns a fresh id. -/
def addMarine (now : Nat) (m : Marine) (s : Store) : Nat × Store :=
  let mid := s.nextMarineId
  let stored : Marine :=
    { m with id := mid,
             createdAt := some (m.createdAt.getD now),
             updatedAt := some now,
             status := some (m.status.getD "present") }
  (mid, { s with marines := s.marines ++ [stored], nextMarineId := mid + 1 })

/-- Model of `TEEPStorage.addQualification` (storage.js:252): assign the
next auto-increment id, keep `createdAt` when present, overwrite
`updatedAt`. -/
def addQualification (now : Nat) (q : Qualification) (s : Store) : Nat × Store :=
  let qid := s.nextQualId
  let stored : Qualification :=
    { q with id := qid,
             createdAt := some (q.createdAt.getD now),
             updatedAt := some now }
  (qid, { s with quals := s.quals ++ [stored], nextQualId := qid + 1 })

/-- Model of `TEEPStorage.getMarineByEdipi` (storage.js:150): lookup on the
unique `edipi` index (first match in the model). -/
def getMarineByEdipi (e : List Char) (s : Store) : Option Marine :=
  s.marines.find? (fun m => m.edipi == e)

/-- Model of `saveQualificationType` (storage.js:361): a `put` keyed by
`id` replaces an existing record or inserts a new one. -/
def saveQualificationType (qt : QualType) (s : Store) : Store :=
  if s.qualTypes.any (fun t => t.id == qt.id) then
    { s with qualTypes := s.qualTypes.map (fun t => if t.id == qt.id then qt else t) }
  else
    { s with qualTypes := s.qualTypes ++ [qt] }

/-- Model of `setSetting` (storage.js:430): a `put` keyed by `key`. -/
def setSetting (k v : String) (s : Store) : Store :=
  if s.settings.any (fun p => p.1 == k) then
    { s with settings := s.settings.map (fun p => if p.1 == k then (k, v) else p) }
  else
    { s with settings := s.settings ++ [(k, v)] }

/-- Model of `logImport` (storage.js:399): append-only history. -/
def logImport (entry : ImportLogEntry) (s : Store) : Store :=
  { s with importHistory := s.importHistory ++ [entry] }

/-! ## Qualification import (import.js) -/

/-- Decimal digits of a natural number. -/
def charsOfNat (n : Nat) : List Char := Nat.toDigits 10 n

/-- Decimal representation of an integer (the JS `String(number)` coercion
for integral values). -/
def charsOfInt (n : Int) : List Char :=
  if n < 0 then '-' :: charsOfNat n.natAbs else charsOfNat n.natAbs

/-- Model of the JS `String(value)` coercion on a raw cell value
(`String(undefined)` is the string 'undefined'; printing a `Date` object
is host behaviour). -/
def jsToString (host : JsHost) : RawValue → List Char
  | .undefVal => str "undefined"
  | .strVal cs => cs
  | .numVal n => charsOfInt n
  | .dateVal dt => host.printDate dt

/-- `String(x).replace(/\D/g, '')`: keep only the ASCII digits. -/
def digitsOnly (cs : List Char) : List Char := cs.filter Char.isDigit

/-- Model of `parseInt` on the string coercion of a value: optional sign
and a leading digit run after leading whitespace; no digits is NaN
(`none`). -/
def parseIntChars (cs : List Char) : Option Int :=
  let cs := cs.dropWhile Char.isWhitespace
  match cs with
  | '-' :: rest =>
    let ds := rest.takeWhile Char.isDigit
    if ds.isEmpty then none else some (-(natOfDigits ds : Int))
  | '+' :: rest =>
    let ds := rest.takeWhile Char.isDigit
    if ds.isEmpty then none else some ((natOfDigits ds : Int))
  | _ =>
    let ds := cs.takeWhile Char.isDigit
    if ds.isEmpty then none else some ((natOfDigits ds : Int))

/-- The aggregate result object of a bulk import. -/
structure ImportResults where
  total : Nat := 0
  added : Nat := 0
  updated : Nat := 0
  skipped : Nat := 0
  errors : List (Nat × String) := []
deriving DecidableEq

/-- A parsed spreadsheet row: header name → raw cell value. -/
abbrev Row := List (String × RawValue)

/-- `row[col]` (an absent column reads as `undefined`). -/
def rowGet (row : Row) (col : String) : RawValue :=
  ((row.find? (fun p => p.1 == col)).map Prod.snd).getD .undefVal

/-- `Object.keys(mapping).find(k => mapping[k] === target)`: the first
header mapped to the given canonical field. -/
def findColFor (mapping : List (String × String)) (target : String) : Option String :=
  (mapping.find? (fun p => p.2 == target)).map Prod.fst

/-- The completion-date column of a qualification import: the first header
mapped to 'completionDate' or 'date' (import.js:650). -/
def findDateCol (mapping : List (String × String)) : Option String :=
  (mapping.find? (fun p => p.2 == "completionDate" || p.2 == "date")).map Prod.fst

/-- The digits-only identifier a row yields (import.js:624): `none` when no
header is mapped to 'edipi' (JS `null`); otherwise the digit-stripped
string coercion of that cell (possibly empty, which is falsy). -/
def rowEdipi (host : JsHost) (mapping : List (String × String)) (row : Row) :
    Option (List Char) :=
  (findColFor mapping "edipi").map
    (fun col => digitsOnly (jsToString host (rowGet row col)))

/-- The qualification record a successfully resolved row produces
(import.js:649-670): parse the completion date (today when no date column
is mapped), parse the score (`parseInt(...) || null`), and compute the
expiration via `calculateExpiration` with the person's separation date.
`src` is the already-defaulted `options.source || 'import'`. -/
def buildQualRecord (host : JsHost) (today : Date)
    (mapping : List (String × String)) (qualTypeId : String) (src : String)
    (marine : Marine) (row : Row) : Qualification :=
  let completionDate :=
    match findDateCol mapping with
    | some col => parseDate host (rowGet row col)
    | none => some today
  let score :=
    match findColFor mapping "score" with
    | some col =>
      match parseIntChars (jsToString host (rowGet row col)) with
      | some n => if n = 0 then none else some n
      | none => none
    | none => none
  { marineId := marine.id, type := qualTypeId,
    completionDate := completionDate,
    expirationDate :=
      match getQualificationType qualTypeId with
      | some qtObj => calculateExpiration qtObj completionDate marine.eas
      | none => none,
    score := score, source := src }

/-- The row loop of `TEEPImport.importQualifications` (import.js:619-682):
a missing or unmatched identifier records an error and increments
`skipped`; a resolved row appends a freshly built qualification record. -/
def importQualsGo (host : JsHost) (now : Nat) (today : Date)
    (mapping : List (String × String)) (qualTypeId : String) (src : String) :
    List Row → Nat → ImportResults → Store → ImportResults × Store
  | [], _, res, s => (res, s)
  | row :: rest, i, res, s =>
    match rowEdipi host mapping row with
    | none =>
      importQualsGo host now today mapping qualTypeId src rest (i + 1)
        { res with skipped := res.skipped + 1,
                   errors := res.errors ++ [(i + 1, "No EDIPI to identify Marine")] } s
    | some e =>
      if e.isEmpty then
        importQualsGo host now today mapping qualTypeId src rest (i + 1)
          { res with skipped := res.skipped + 1,
                     errors := res.errors ++ [(i + 1, "No EDIPI to identify Marine")] } s
      else
        match getMarineByEdipi e s with
        | none =>
          importQualsGo host now today mapping qualTypeId src rest (i + 1)
            { res with skipped := res.skipped + 1,
                       errors := res.errors ++
                         [(i + 1, "Marine with EDIPI " ++ String.mk e ++ " not found")] } s
        | some marine =>
          importQualsGo host now today mapping qualTypeId src rest (i + 1)
            { res with added := res.added + 1 }
            (addQualification now (buildQualRecord host today mapping qualTypeId src marine row) s).2

/-- Model of `TEEPImport.importQualifications` (import.js:610): run the row
loop and append one aggregate history entry. -/
def importQualifications (host : JsHost) (now : Nat) (today : Date)
    (rows : List Row) (mapping : List (String × String))
    (qualTypeId : String) (src : String) (s : Store) : ImportResults × Store :=
  let out := importQualsGo host now today mapping qualTypeId src rows 0
    { total := rows.length } s
  (out.1,
   logImport
     { type := "qualifications", qualificationType := qualTypeId, source := src,
       total := out.1.total, added := out.1.added, skipped := out.1.skipped,
       errorCount := out.1.errors.length } out.2)

/-! ## Characterisation of the qualification-import loop -/

/-- Whether a row resolves an owning person: it does exactly when the
mapped identifier column yields a non-empty digit string that matches a
stored person's `edipi` — names play no part. -/
def rowResolves (host : JsHost) (mapping : List (String × String))
    (marines : List Marine) (row : Row) : Bool :=
  match rowEdipi host mapping row with
  | none => false
  | some e => !e.isEmpty && (marines.find? (fun m => m.edipi == e)).isSome

/-- The per-row error list the loop accumulates (row numbers are
1-based). -/
def qualErrors (host : JsHost) (mapping : List (String × String))
    (marines : List Marine) : Nat → List Row → List (Nat × String)
  | _, [] => []
  | i, row :: rest =>
    match rowEdipi host mapping row with
    | none =>
      (i + 1, "No EDIPI to identify Marine") :: qualErrors host mapping marines (i + 1) rest
    | some e =>
      if e.isEmpty then
        (i + 1, "No EDIPI to identify Marine") :: qualErrors host mapping marines (i + 1) rest
      else
        match marines.find? (fun m => m.edipi == e) with
        | none =>
          (i + 1, "Marine with EDIPI " ++ String.mk e ++ " not found") ::
            qualErrors host mapping marines (i + 1) rest
        | some _ => qualErrors host mapping marines (i + 1) rest

/-- The qualification records one import run appends, with the store ids
the auto-increment counter assigns starting at `base`. -/
def qualBatch (host : JsHost) (now : Nat) (today : Date)
    (mapping : List (String × String)) (qualTypeId src : String)
    (marines : List Marine) : Nat → List Row → List Qualification
  | _, [] => []
  | base, row :: rest =>
    match rowEdipi host mapping row with
    | none => qualBatch host now today mapping qualTypeId src marines base rest
    | some e =>
      if e.isEmpty then qualBatch host now today mapping qualTypeId src marines base rest
      else
        match marines.find? (fun m => m.edipi == e) with
        | none => qualBatch host now today mapping qualTypeId src marines base rest
        | some marine =>
          (let q := buildQualRecord host today mapping qualTypeId src marine row
           { q with id := base, createdAt := some (q.createdAt.getD now),
                    updatedAt := some now }) ::
            qualBatch host now today mapping qualTypeId src marines (base + 1) rest

/-- The row-derived content of a qualification record (everything except
the store-assigned id and timestamps). -/
def Qualification.content (q : Qualification) :
    Nat × String × Option Date × Option Date × Option Int × String :=
  (q.marineId, q.type, q.completionDate, q.expirationDate, q.score, q.source)

/-- The loop is exactly: count and log an error per unresolved row, count
and append one freshly numbered record per resolved row, and never touch
`updated`, the person list, or anything else in the store. -/
lemma importQualsGo_spec (host : JsHost) (now : Nat) (today : Date)
    (mapping : List (String × String)) (qualTypeId src : String) :
    ∀ (rows : List Row) (i : Nat) (res : ImportResults) (s : Store),
      importQualsGo host now today mapping qualTypeId src rows i res s =
        ({ res with
             added := res.added + rows.countP (rowResolves host mapping s.marines),
             skipped := res.skipped +
               rows.countP (fun r => !(rowResolves host mapping s.marines r)),
             errors := res.errors ++ qualErrors host mapping s.marines i rows },
         { s with
             quals := s.quals ++
               qualBatch host now today mapping qualTypeId src s.marines s.nextQualId rows,
             nextQualId := s.nextQualId +
               rows.countP (rowResolves host mapping s.marines) }) := by
  intro rows
  induction rows with
  | nil => intro i res s; simp [importQualsGo, qualErrors, qualBatch]
  | cons row rest ih =>
    intro i res s
    rcases hE : rowEdipi host mapping row with _ | e
    · rw [importQualsGo, hE]
      simp [ih, qualErrors, qualBatch, rowResolves, hE, List.countP_cons]
      try omega
    · cases hEmp : e.isEmpty with
      | true =>
        rw [importQualsGo, hE]
        simp [ih, hEmp, qualErrors, qualBatch, rowResolves, hE, List.countP_cons]
        try omega
      | false =>
        rcases hF : s.marines.find? (fun m => m.edipi == e) with _ | marine <;>
          rw [importQualsGo, hE] <;>
          simp [ih, hEmp, hF, qualErrors, qualBatch, rowResolves, getMarineByEdipi,
            addQualification, List.countP_cons, List.append_assoc, hE] <;>
          try omega

/-- The error list has one entry per unresolved row. -/
lemma qualErrors_length (host : JsHost) (mapping : List (String × String))
    (marines : List Marine) :
    ∀ (rows : List Row) (i : Nat),
      (qualErrors host mapping marines i rows).length =
        rows.countP (fun r => !(rowResolves host mapping marines r)) := by
  intro rows
  induction rows with
  | nil => intro i; simp [qualErrors]
  | cons row rest ih =>
    intro i
    rcases hE : rowEdipi host mapping row with _ | e
    · simp [qualErrors, rowResolves, hE, List.countP_cons, ih]
    · cases hEmp : e.isEmpty with
      | true => simp [qualErrors, rowResolves, hE, hEmp, List.countP_cons, ih]
      | false =>
        rcases hF : marines.find? (fun m => m.edipi == e) with _ | marine <;>
          simp [qualErrors, rowResolves, hE, hEmp, hF, List.countP_cons, ih]

/-- The content of a batch does not depend on the id counter base or the
timestamp: re-importing the same rows against the same person list appends
records with identical row-derived content. -/
lemma qualBatch_map_content (host : JsHost) (today : Date)
    (mapping : List (String × String)) (qualTypeId src : String)
    (marines : List Marine) :
    ∀ (rows : List Row) (now1 now2 base1 base2 : Nat),
      (qualBatch host now1 today mapping qualTypeId src marines base1 rows).map
          Qualification.content =
        (qualBatch host now2 today mapping qualTypeId src marines base2 rows).map
          Qualification.content := by
  intro rows
  induction rows with
  | nil => intro now1 now2 base1 base2; rfl
  | cons row rest ih =>
    intro now1 now2 base1 base2
    rcases hE : rowEdipi host mapping row with _ | e
    · simp only [qualBatch, hE]
      exact ih now1 now2 base1 base2
    · cases hEmp : e.isEmpty with
      | true =>
        simp only [qualBatch, hE, if_pos hEmp]
        exact ih now1 now2 base1 base2
      | false =>
        rcases hF : marines.find? (fun m => m.edipi == e) with _ | marine <;>
          simp only [qualBatch, hE, if_neg (by simp [hEmp] : ¬e.isEmpty = true), hF]
        · exact ih now1 now2 base1 base2
        · simp only [List.map_cons, Qualification.content]
          rw [ih now1 now2 (base1 + 1) (base2 + 1)]

/-- One qualification import run, fully characterised: the counts, the
error list, the appended record batch, the advanced id counter and the
single history entry; everything else in the store is untouched. -/
lemma importQualifications_spec (host : JsHost) (now : Nat) (today : Date)
    (rows : List Row) (mapping : List (String × String))
    (qualTypeId src : String) (s : Store) :
    importQualifications host now today rows mapping qualTypeId src s =
      ({ total := rows.length,
         added := rows.countP (rowResolves host mapping s.marines),
         updated := 0,
         skipped := rows.countP (fun r => !(rowResolves host mapping s.marines r)),
         errors := qualErrors host mapping s.marines 0 rows },
       { s with
           quals := s.quals ++
             qualBatch host now today mapping qualTypeId src s.marines s.nextQualId rows,
           nextQualId := s.nextQualId + rows.countP (rowResolves host mapping s.marines),
           importHistory := s.importHistory ++
             [{ type := "qualifications", qualificationType := qualTypeId, source := src,
                total := rows.length,
                added := rows.countP (rowResolves host mapping s.marines),
                skipped := rows.countP (fun r => !(rowResolves host mapping s.marines r)),
                errorCount := (qualErrors host mapping s.marines 0 rows).length }] }) := by
  simp [importQualifications, importQualsGo_spec, logImport]

/-- Rows resolve through the mapped identifier column only: when no header
is mapped to 'edipi', no row resolves. -/
lemma rowResolves_no_edipi_col (host : JsHost) (mapping : List (String × String))
    (marines : List Marine) (row : Row) (h : findColFor mapping "edipi" = none) :
    rowResolves host mapping marines row = false := by
  simp [rowResolves, rowEdipi, h]

/-- C7: qualification import resolves the owning person only through the
mapped unique-identifier column — with no such column mapped every row is
skipped with an error; rows that fail to resolve always increment
`skipped` and record an error; resolved rows always append a new record,
the `updated` count is 0 for every qualification import, the person list
is never touched, and re-importing the same rows appends a second batch of
records with identical row-derived content (duplicates). -/
theorem importQualifications_append_only :
    ∀ (host : JsHost) (now1 now2 : Nat) (today : Date) (rows : List Row)
      (mapping : List (String × String)) (qtId src : String) (s : Store),
      (importQualifications host now1 today rows mapping qtId src s).1.updated = 0
      ∧ (importQualifications host now1 today rows mapping qtId src s).2.marines = s.marines
      ∧ (importQualifications host now1 today rows mapping qtId src s).1.added =
          rows.countP (rowResolves host mapping s.marines)
      ∧ (importQualifications host now1 today rows mapping qtId src s).1.skipped =
          rows.countP (fun r => !(rowResolves host mapping s.marines r))
      ∧ (importQualifications host now1 today rows mapping qtId src s).1.errors.length =
          (importQualifications host now1 today rows mapping qtId src s).1.skipped
      ∧ (importQualifications host now1 today rows mapping qtId src s).1.added +
          (importQualifications host now1 today rows mapping qtId src s).1.skipped =
          (importQualifications host now1 today rows mapping qtId src s).1.total
      ∧ (findColFor mapping "edipi" = none →
          (importQualifications host now1 today rows mapping qtId src s).1.added = 0
          ∧ (importQualifications host now1 today rows mapping qtId src s).1.skipped =
              rows.length)
      ∧ (importQualifications host now1 today rows mapping qtId src s).2.quals =
          s.quals ++ qualBatch host now1 today mapping qtId src s.marines s.nextQualId rows
      ∧ (importQualifications host now2 today rows mapping qtId src
            (importQualifications host now1 today rows mapping qtId src s).2).2.quals =
          s.quals ++ qualBatch host now1 today mapping qtId src s.marines s.nextQualId rows
            ++ qualBatch host now2 today mapping qtId src s.marines
                ((importQualifications host now1 today rows mapping qtId src s).2.nextQualId)
                rows
      ∧ (qualBatch host now2 today mapping qtId src s.marines
            ((importQualifications host now1 today rows mapping qtId src s).2.nextQualId)
            rows).map Qualification.content =
          (qualBatch host now1 today mapping qtId src s.marines s.nextQualId rows).map
            Qualification.content := by
  intro host now1 now2 today rows mapping qtId src s
  have h1 := importQualifications_spec host now1 today rows mapping qtId src s
  refine ⟨by rw [h1], by rw [h1], by rw [h1], by rw [h1], ?_, ?_, ?_, by rw [h1], ?_, ?_⟩
  · rw [h1]
    exact qualErrors_length host mapping s.marines rows 0
  · rw [h1]
    have := List.length_eq_countP_add_countP (rowResolves host mapping s.marines) rows
    simpa using this.symm
  · intro h
    have hall : ∀ r ∈ rows, rowResolves host mapping s.marines r = false :=
      fun r _ => rowResolves_no_edipi_col host mapping s.marines r h
    rw [h1]
    constructor
    · simp only []
      rw [List.countP_eq_zero]
      intro r hr
      simp [hall r hr]
    · simp only []
      rw [List.countP_eq_length]
      intro r hr
      simp [hall r hr]
  · rw [h1]
    have h2 := importQualifications_spec host now2 today rows mapping qtId src
      ({ s with
           quals := s.quals ++
             qualBatch host now1 today mapping qtId src s.marines s.nextQualId rows,
           nextQualId := s.nextQualId + rows.countP (rowResolves host mapping s.marines),
           importHistory := s.importHistory ++
             [{ type := "qualifications", qualificationType := qtId, source := src,
                total := rows.length,
                added := rows.countP (rowResolves host mapping s.marines),
                skipped := rows.countP (fun r => !(rowResolves host mapping s.marines r)),
                errorCount := (qualErrors host mapping s.marines 0 rows).length }] })
    rw [h2]
  · rw [h1]
    exact qualBatch_map_content host today mapping qtId src s.marines rows now2 now1 _ _

/-- Witness for `importQualifications_append_only`: with no header mapped
to the identifier field, a one-row import adds nothing and skips the
row. -/
theorem importQualifications_append_only_witness :
    (importQualifications nullHost 1 ⟨2024, 1, 1⟩ [[("A", RawValue.strVal (str "5"))]]
        [] "pha" "import" emptyStore).1.added = 0
    ∧ (importQualifications nullHost 1 ⟨2024, 1, 1⟩ [[("A", RawValue.strVal (str "5"))]]
        [] "pha" "import" emptyStore).1.skipped =
        ([[("A", RawValue.strVal (str "5"))]] : List Row).length :=
  (importQualifications_append_only nullHost 1 1 ⟨2024, 1, 1⟩
    [[("A", RawValue.strVal (str "5"))]] [] "pha" "import"
    emptyStore).2.2.2.2.2.2.1 rfl

/-! ## C5: the null-completion-date invariant -/

/-- A person on the roster for exercising the import path. -/
def c5Marine : Marine :=
  { id := 1, edipi := str "1234567890", eas := none, payload := "",
    status := some "present", createdAt := some 0, updatedAt := some 0 }

def c5Store : Store := { marines := [c5Marine], nextMarineId := 2 }

def c5Mapping : List (String × String) := [("EDIPI", "edipi"), ("Date", "completionDate")]

/-- A row whose date cell is the empty string, on which `parseDate`
returns null. -/
def c5Row : Row := [("EDIPI", .strVal (str "1234567890")), ("Date", .strVal [])]

/-- The record the import stores for `c5Row`: the completion date is null,
yet the expiration date is 1971-01-01 — `calculateExpiration` evaluated
`new Date(null)` to the Unix epoch and added the 12 rolling months of the
'pha' type. -/
def c5StoredQual : Qualification :=
  { id := 1, marineId := 1, type := "pha", completionDate := none,
    expirationDate := some ⟨1971, 1, 1⟩, score := none, source := "import",
    createdAt := some 100, updatedAt := some 100 }

/-- C5 (code bug): importing a row whose date cell fails to parse stores a
qualification with a null completion date but a NON-null expiration date
(epoch + 12 months = 1971-01-01), violating the invariant that
`expirationDate` is null whenever no completion date was supplied. -/
theorem import_null_completion_nonnull_expiration :
    (importQualifications nullHost 100 ⟨2024, 1, 15⟩ [c5Row] c5Mapping "pha" "import"
        c5Store).2.quals = [c5StoredQual]
    ∧ (importQualifications nullHost 100 ⟨2024, 1, 15⟩ [c5Row] c5Mapping "pha" "import"
        c5Store).1.added = 1
    ∧ c5StoredQual.completionDate = none
    ∧ c5StoredQual.expirationDate ≠ none := by
  refine ⟨by decide, by decide, by decide, by decide⟩

/-! ## Backup export and re-import (storage.js) -/

/-- The `data` portion of an exported JSON backup (storage.js:561);
`version` and `exportDate` carry no entity data and are elided. -/
structure Backup where
  marines : List Marine
  qualifications : List Qualification
  qualificationTypes : List QualType
  settings : List (String × String)
deriving DecidableEq

/-- Model of `TEEPStorage.exportAllData` (storage.js:555): a full
snapshot. -/
def exportAllData (s : Store) : Backup :=
  ⟨s.marines, s.quals, s.qualTypes, s.settings⟩

/-- Model of `Map.prototype.get` on the id dictionary (first matching key
in the model; old ids in a store snapshot are unique). -/
def mapGet (l : List (Nat × Nat)) (k : Nat) : Option Nat :=
  (l.find? (fun p => p.1 == k)).map Prod.snd

/-- The marine loop of `importFromBackup` (storage.js:622-633): delete the
old id, re-add, and record old id → new id in the dictionary. -/
def importBackupMarinesGo (now : Nat) : List Marine → Store → Store × List (Nat × Nat)
  | [], s => (s, [])
  | m :: rest, s =>
    let r := addMarine now { m with id := 0 } s
    let r' := importBackupMarinesGo now rest r.2
    (r'.1, (m.id, r.1) :: r'.2)

/-- The qualification loop of `importFromBackup` (storage.js:636-651): look
the old person id up in the dictionary; re-add with the rewritten
`marineId` when found, silently skip when not. -/
def importBackupQualsGo (now : Nat) (idMap : List (Nat × Nat)) :
    List Qualification → Store → Store
  | [], s => s
  | q :: rest, s =>
    match mapGet idMap q.marineId with
    | none => importBackupQualsGo now idMap rest s
    | some nid =>
      importBackupQualsGo now idMap rest
        (addQualification now { q with marineId := nid, id := 0 } s).2

/-- Model of `TEEPStorage.importFromBackup` (storage.js:594): qualification
types first, then the people (building the id dictionary), then the
qualifications through the dictionary, then the settings. -/
def importFromBackup (now : Nat) (b : Backup) (s : Store) : Store :=
  let s1 := b.qualificationTypes.foldl (fun acc qt => saveQualificationType qt acc) s
  let r := importBackupMarinesGo now b.marines s1
  let s3 := importBackupQualsGo now r.2 b.qualifications r.1
  b.settings.foldl (fun acc kv => setSetting kv.1 kv.2 acc) s3

/-! Characterisation helpers for the round-trip theorem. -/

/-- What `addMarine` stores for a backed-up person re-added at id
`base`. -/
def restoredMarine (now base : Nat) (m : Marine) : Marine :=
  { m with id := base,
           createdAt := some (m.createdAt.getD now),
           updatedAt := some now,
           status := some (m.status.getD "present") }

/-- The re-added person list, numbered consecutively from `base`. -/
def restoredMarines (now : Nat) : Nat → List Marine → List Marine
  | _, [] => []
  | base, m :: rest => restoredMarine now base m :: restoredMarines now (base + 1) rest

/-- The id dictionary the marine loop builds when the new ids start at
`base`. -/
def backupIdMap : Nat → List Marine → List (Nat × Nat)
  | _, [] => []
  | base, m :: rest => (m.id, base) :: backupIdMap (base + 1) rest

/-- What `addQualification` stores for a backed-up qualification re-added
at id `base` with its foreign key rewritten to `nid`. -/
def restoredQual (now base nid : Nat) (q : Qualification) : Qualification :=
  { q with id := base, marineId := nid,
           createdAt := some (q.createdAt.getD now),
           updatedAt := some now }

/-- The surviving qualification list: those whose old person id is in the
dictionary, numbered consecutively from `base`; the rest dropped. -/
def restoredQuals (now : Nat) (idMap : List (Nat × Nat)) :
    Nat → List Qualification → List Qualification
  | _, [] => []
  | base, q :: rest =>
    match mapGet idMap q.marineId with
    | none => restoredQuals now idMap base rest
    | some nid => restoredQual now base nid q :: restoredQuals now idMap (base + 1) rest

lemma importBackupMarinesGo_spec (now : Nat) :
    ∀ (ms : List Marine) (s : Store),
      importBackupMarinesGo now ms s =
        ({ s with marines := s.marines ++ restoredMarines now s.nextMarineId ms,
                  nextMarineId := s.nextMarineId + ms.length },
         backupIdMap s.nextMarineId ms) := by
  intro ms
  induction ms with
  | nil => intro s; simp [importBackupMarinesGo, restoredMarines, backupIdMap]
  | cons m rest ih =>
    intro s
    simp [importBackupMarinesGo, addMarine, ih, restoredMarines, backupIdMap,
      restoredMarine, List.append_assoc]
    omega

lemma importBackupQualsGo_spec (now : Nat) (idMap : List (Nat × Nat)) :
    ∀ (qs : List Qualification) (s : Store),
      importBackupQualsGo now idMap qs s =
        { s with quals := s.quals ++ restoredQuals now idMap s.nextQualId qs,
                 nextQualId := s.nextQualId +
                   qs.countP (fun q => (mapGet idMap q.marineId).isSome) } := by
  intro qs
  induction qs with
  | nil => intro s; simp [importBackupQualsGo, restoredQuals]
  | cons q rest ih =>
    intro s
    rcases hM : mapGet idMap q.marineId with _ | nid <;>
      simp [importBackupQualsGo, addQualification, ih, restoredQuals, restoredQual,
        hM, List.countP_cons, List.append_assoc]
    all_goals try omega

lemma saveTypes_foldl_preserves (qts : List QualType) :
    ∀ s : Store,
      ((qts.foldl (fun acc qt => saveQualificationType qt acc) s).marines = s.marines)
      ∧ ((qts.foldl (fun acc qt => saveQualificationType qt acc) s).quals = s.quals)
      ∧ ((qts.foldl (fun acc qt => saveQualificationType qt acc) s).nextMarineId =
          s.nextMarineId)
      ∧ ((qts.foldl (fun acc qt => saveQualificationType qt acc) s).nextQualId =
          s.nextQualId) := by
  induction qts with
  | nil => intro s; exact ⟨rfl, rfl, rfl, rfl⟩
  | cons qt rest ih =>
    intro s
    have h := ih (saveQualificationType qt s)
    have hsame : (saveQualificationType qt s).marines = s.marines
        ∧ (saveQualificationType qt s).quals = s.quals
        ∧ (saveQualificationType qt s).nextMarineId = s.nextMarineId
        ∧ (saveQualificationType qt s).nextQualId = s.nextQualId := by
      unfold saveQualificationType
      split <;> exact ⟨rfl, rfl, rfl, rfl⟩
    refine ⟨?_, ?_, ?_, ?_⟩ <;> simp only [List.foldl_cons]
    · exact h.1.trans hsame.1
    · exact h.2.1.trans hsame.2.1
    · exact h.2.2.1.trans hsame.2.2.1
    · exact h.2.2.2.trans hsame.2.2.2

lemma setSettings_foldl_preserves (kvs : List (String × String)) :
    ∀ s : Store,
      ((kvs.foldl (fun acc kv => setSetting kv.1 kv.2 acc) s).marines = s.marines)
      ∧ ((kvs.foldl (fun acc kv => setSetting kv.1 kv.2 acc) s).quals = s.quals) := by
  induction kvs with
  | nil => intro s; exact ⟨rfl, rfl⟩
  | cons kv rest ih =>
    intro s
    have h := ih (setSetting kv.1 kv.2 s)
    have hsame : (setSetting kv.1 kv.2 s).marines = s.marines
        ∧ (setSetting kv.1 kv.2 s).quals = s.quals := by
      unfold setSetting
      split <;> exact ⟨rfl, rfl⟩
    exact ⟨h.1.trans hsame.1, h.2.trans hsame.2⟩

lemma restoredMarines_length (now : Nat) :
    ∀ (ms : List Marine) (base : Nat),
      (restoredMarines now base ms).length = ms.length := by
  intro ms
  induction ms with
  | nil => intro base; rfl
  | cons m rest ih => intro base; simp [restoredMarines, ih]

lemma restoredMarines_get (now : Nat) :
    ∀ (ms : List Marine) (base : Nat) (i : Nat) (hi : i < ms.length)
      (hi2 : i < (restoredMarines now base ms).length),
      (restoredMarines now base ms).get ⟨i, hi2⟩ =
        restoredMarine now (base + i) (ms.get ⟨i, hi⟩) := by
  intro ms
  induction ms with
  | nil => intro base i hi _; exact absurd hi (by simp)
  | cons m rest ih =>
    intro base i hi hi2
    cases i with
    | zero => simp [restoredMarines]
    | succ n =>
      have hn : n < rest.length := by simpa using hi
      have hn2 : n < (restoredMarines now (base + 1) rest).length := by
        rw [restoredMarines_length]
        exact hn
      simp only [restoredMarines, List.get_cons_succ]
      rw [ih (base + 1) n hn hn2]
      congr 1
      omega

lemma mapGet_nil (k : Nat) : mapGet [] k = none := rfl

lemma mapGet_cons_eq (x : Nat × Nat) (l : List (Nat × Nat)) (k : Nat)
    (h : x.1 = k) : mapGet (x :: l) k = some x.2 := by
  simp [mapGet, List.find?_cons_of_pos, h]

lemma mapGet_cons_ne (x : Nat × Nat) (l : List (Nat × Nat)) (k : Nat)
    (h : x.1 ≠ k) : mapGet (x :: l) k = mapGet l k := by
  simp only [mapGet]
  rw [List.find?_cons_of_neg]
  simp [h]

lemma mapGet_backupIdMap_some_inv :
    ∀ (ms : List Marine) (base k v : Nat),
      mapGet (backupIdMap base ms) k = some v →
      ∃ i, ∃ hi : i < ms.length, (ms.get ⟨i, hi⟩).id = k ∧ v = base + i := by
  intro ms
  induction ms with
  | nil => intro base k v h; exact absurd h (by simp [backupIdMap, mapGet_nil])
  | cons m rest ih =>
    intro base k v h
    by_cases hid : m.id = k
    · rw [backupIdMap, mapGet_cons_eq _ _ _ hid] at h
      refine ⟨0, by simp, by simpa using hid, ?_⟩
      simpa using h.symm
    · rw [backupIdMap, mapGet_cons_ne _ _ _ hid] at h
      obtain ⟨i, hi, hk, hv⟩ := ih (base + 1) k v h
      refine ⟨i + 1, by simpa using hi, by simpa using hk, by omega⟩

lemma mapGet_backupIdMap_isSome :
    ∀ (ms : List Marine) (base k : Nat),
      (mapGet (backupIdMap base ms) k).isSome = (ms.map Marine.id).contains k := by
  intro ms
  induction ms with
  | nil => intro base k; simp [backupIdMap, mapGet_nil]
  | cons m rest ih =>
    intro base k
    by_cases hid : m.id = k
    · rw [backupIdMap, mapGet_cons_eq _ _ _ hid]
      simp [hid]
    · rw [backupIdMap, mapGet_cons_ne _ _ _ hid]
      simp only [List.map_cons, List.contains_cons, ih (base + 1) k]
      have : (k == m.id) = false := by
        simp
        exact fun hk => hid hk.symm
      rw [this]
      simp

/-- The qualifications of a store that survive a backup round-trip: those
whose old person id appears among the exported person ids — exactly the
ones the rebuilt id dictionary retains. -/
def survivingQuals (S : Store) : List Qualification :=
  S.quals.filter (fun q => (S.marines.map Marine.id).contains q.marineId)

/-- The surviving qualifications renumbered consecutively from `base`,
each with its foreign key sent through the dictionary (every element of
the input is assumed kept, so the `getD 0` default is never taken). -/
def renumberQuals (now : Nat) (idMap : List (Nat × Nat)) :
    Nat → List Qualification → List Qualification
  | _, [] => []
  | base, q :: rest =>
    restoredQual now base ((mapGet idMap q.marineId).getD 0) q ::
      renumberQuals now idMap (base + 1) rest

/-- The restored qualification list is the dictionary-filtered original
list, renumbered in order: every surviving record is reproduced exactly
once, at its original relative position. -/
lemma restoredQuals_eq_renumber (now : Nat) (idMap : List (Nat × Nat)) :
    ∀ (qs : List Qualification) (base : Nat),
      restoredQuals now idMap base qs =
        renumberQuals now idMap base
          (qs.filter (fun q => (mapGet idMap q.marineId).isSome)) := by
  intro qs
  induction qs with
  | nil => intro base; rfl
  | cons q rest ih =>
    intro base
    rcases hM : mapGet idMap q.marineId with _ | nid <;>
      simp [restoredQuals, List.filter_cons, hM, renumberQuals, ih]

lemma renumberQuals_length (now : Nat) (idMap : List (Nat × Nat)) :
    ∀ (qs : List Qualification) (base : Nat),
      (renumberQuals now idMap base qs).length = qs.length := by
  intro qs
  induction qs with
  | nil => intro base; rfl
  | cons q rest ih => intro base; simp [renumberQuals, ih]

lemma renumberQuals_get (now : Nat) (idMap : List (Nat × Nat)) :
    ∀ (qs : List Qualification) (base : Nat) (j : Nat) (hj : j < qs.length)
      (hj2 : j < (renumberQuals now idMap base qs).length),
      (renumberQuals now idMap base qs).get ⟨j, hj2⟩ =
        restoredQual now (base + j)
          ((mapGet idMap (qs.get ⟨j, hj⟩).marineId).getD 0) (qs.get ⟨j, hj⟩) := by
  intro qs
  induction qs with
  | nil => intro base j hj _; exact absurd hj (by simp)
  | cons q rest ih =>
    intro base j hj hj2
    cases j with
    | zero => simp [renumberQuals]
    | succ n =>
      have hn : n < rest.length := by simpa using hj
      have hn2 : n < (renumberQuals now idMap (base + 1) rest).length := by
        rw [renumberQuals_length]
        exact hn
      simp only [renumberQuals, List.get_cons_succ]
      rw [ih (base + 1) n hn hn2]
      congr 1
      omega

lemma saveTypes_foldl_marines (qts : List QualType) (s : Store) :
    (qts.foldl (fun acc qt => saveQualificationType qt acc) s).marines = s.marines :=
  (saveTypes_foldl_preserves qts s).1

lemma saveTypes_foldl_quals (qts : List QualType) (s : Store) :
    (qts.foldl (fun acc qt => saveQualificationType qt acc) s).quals = s.quals :=
  (saveTypes_foldl_preserves qts s).2.1

lemma saveTypes_foldl_nextMarineId (qts : List QualType) (s : Store) :
    (qts.foldl (fun acc qt => saveQualificationType qt acc) s).nextMarineId =
      s.nextMarineId :=
  (saveTypes_foldl_preserves qts s).2.2.1

lemma saveTypes_foldl_nextQualId (qts : List QualType) (s : Store) :
    (qts.foldl (fun acc qt => saveQualificationType qt acc) s).nextQualId =
      s.nextQualId :=
  (saveTypes_foldl_preserves qts s).2.2.2

lemma setSettings_foldl_marines (kvs : List (String × String)) (s : Store) :
    (kvs.foldl (fun acc kv => setSetting kv.1 kv.2 acc) s).marines = s.marines :=
  (setSettings_foldl_preserves kvs s).1

lemma setSettings_foldl_quals (kvs : List (String × String)) (s : Store) :
    (kvs.foldl (fun acc kv => setSetting kv.1 kv.2 acc) s).quals = s.quals :=
  (setSettings_foldl_preserves kvs s).2

/-- Re-importing a backup into an empty store yields exactly the
reassigned person list (new ids from 1) and the dictionary-filtered,
renumbered qualification list. -/
lemma importFromBackup_empty (now : Nat) (b : Backup) :
    (importFromBackup now b emptyStore).marines = restoredMarines now 1 b.marines
    ∧ (importFromBackup now b emptyStore).quals =
        restoredQuals now (backupIdMap 1 b.marines) 1 b.qualifications := by
  constructor
  · simp only [importFromBackup, importBackupMarinesGo_spec, importBackupQualsGo_spec,
      setSettings_foldl_marines]
    simp [saveTypes_foldl_marines, saveTypes_foldl_nextMarineId, emptyStore]
  · simp only [importFromBackup, importBackupMarinesGo_spec, importBackupQualsGo_spec,
      setSettings_foldl_quals]
    simp [saveTypes_foldl_quals, saveTypes_foldl_nextMarineId, saveTypes_foldl_nextQualId,
      emptyStore]

/-- C6 (amended): exporting a full backup and re-importing it into an
empty store reproduces, in order and record for record, every person
(every field value preserved except the store-assigned id and the
`updatedAt` timestamp, which becomes the import time; `createdAt` and
`status` are preserved when present and defaulted otherwise) and every
surviving qualification — the j-th restored qualification record is the
j-th original whose old person id appears in the rebuilt id dictionary,
with its fields preserved (id, the rewritten `marineId` foreign key, and
`updatedAt` excepted) and still attached to its original owning person;
qualifications whose old person id is absent from the dictionary are
silently dropped. -/
theorem backup_roundtrip_preserves :
    ∀ (S : Store) (now : Nat),
      (importFromBackup now (exportAllData S) emptyStore).marines.length =
        S.marines.length
      ∧ (∀ i (hi : i < S.marines.length)
          (hi2 : i < (importFromBackup now (exportAllData S) emptyStore).marines.length),
          ((importFromBackup now (exportAllData S) emptyStore).marines.get ⟨i, hi2⟩).edipi =
              (S.marines.get ⟨i, hi⟩).edipi
          ∧ ((importFromBackup now (exportAllData S) emptyStore).marines.get ⟨i, hi2⟩).eas =
              (S.marines.get ⟨i, hi⟩).eas
          ∧ ((importFromBackup now (exportAllData S) emptyStore).marines.get
                ⟨i, hi2⟩).payload = (S.marines.get ⟨i, hi⟩).payload
          ∧ ((importFromBackup now (exportAllData S) emptyStore).marines.get
                ⟨i, hi2⟩).status = some ((S.marines.get ⟨i, hi⟩).status.getD "present")
          ∧ ((importFromBackup now (exportAllData S) emptyStore).marines.get
                ⟨i, hi2⟩).createdAt = some ((S.marines.get ⟨i, hi⟩).createdAt.getD now)
          ∧ ((importFromBackup now (exportAllData S) emptyStore).marines.get
                ⟨i, hi2⟩).updatedAt = some now)
      ∧ (importFromBackup now (exportAllData S) emptyStore).quals.length =
          (survivingQuals S).length
      ∧ (∀ j (hj : j < (survivingQuals S).length)
          (hj2 : j < (importFromBackup now (exportAllData S) emptyStore).quals.length),
          ((importFromBackup now (exportAllData S) emptyStore).quals.get
                ⟨j, hj2⟩).type = ((survivingQuals S).get ⟨j, hj⟩).type
          ∧ ((importFromBackup now (exportAllData S) emptyStore).quals.get
                ⟨j, hj2⟩).completionDate = ((survivingQuals S).get ⟨j, hj⟩).completionDate
          ∧ ((importFromBackup now (exportAllData S) emptyStore).quals.get
                ⟨j, hj2⟩).expirationDate = ((survivingQuals S).get ⟨j, hj⟩).expirationDate
          ∧ ((importFromBackup now (exportAllData S) emptyStore).quals.get
                ⟨j, hj2⟩).score = ((survivingQuals S).get ⟨j, hj⟩).score
          ∧ ((importFromBackup now (exportAllData S) emptyStore).quals.get
                ⟨j, hj2⟩).source = ((survivingQuals S).get ⟨j, hj⟩).source
          ∧ ((importFromBackup now (exportAllData S) emptyStore).quals.get
                ⟨j, hj2⟩).createdAt =
              some (((survivingQuals S).get ⟨j, hj⟩).createdAt.getD now)
          ∧ ((importFromBackup now (exportAllData S) emptyStore).quals.get
                ⟨j, hj2⟩).updatedAt = some now
          ∧ ∃ i, ∃ hi : i < S.marines.length,
              ∃ hi2 : i < (importFromBackup now (exportAllData S) emptyStore).marines.length,
              (S.marines.get ⟨i, hi⟩).id = ((survivingQuals S).get ⟨j, hj⟩).marineId
              ∧ ((importFromBackup now (exportAllData S) emptyStore).quals.get
                    ⟨j, hj2⟩).marineId =
                  ((importFromBackup now (exportAllData S) emptyStore).marines.get
                    ⟨i, hi2⟩).id) := by
  intro S now
  obtain ⟨hRm0, hRq0⟩ := importFromBackup_empty now (exportAllData S)
  have hRm : (importFromBackup now (exportAllData S) emptyStore).marines =
      restoredMarines now 1 S.marines := hRm0
  have hRq : (importFromBackup now (exportAllData S) emptyStore).quals =
      restoredQuals now (backupIdMap 1 S.marines) 1 S.quals := hRq0
  have hfilt : survivingQuals S =
      S.quals.filter (fun q => (mapGet (backupIdMap 1 S.marines) q.marineId).isSome) :=
    List.filter_congr
      (fun q _ => (mapGet_backupIdMap_isSome S.marines 1 q.marineId).symm)
  have hRq2 : (importFromBackup now (exportAllData S) emptyStore).quals =
      renumberQuals now (backupIdMap 1 S.marines) 1 (survivingQuals S) := by
    rw [hRq, restoredQuals_eq_renumber, ← hfilt]
  have hlen : (importFromBackup now (exportAllData S) emptyStore).marines.length =
      S.marines.length := by
    rw [hRm, restoredMarines_length]
  refine ⟨hlen, ?_, ?_, ?_⟩
  · intro i hi hi2
    have hget : (importFromBackup now (exportAllData S) emptyStore).marines.get
        ⟨i, hi2⟩ = restoredMarine now (1 + i) (S.marines.get ⟨i, hi⟩) := by
      rw [List.get_of_eq hRm ⟨i, hi2⟩]
      exact restoredMarines_get now S.marines 1 i hi _
    rw [hget]
    simp [restoredMarine]
  · rw [hRq2, renumberQuals_length]
  · intro j hj hj2
    have hget : (importFromBackup now (exportAllData S) emptyStore).quals.get
        ⟨j, hj2⟩ = restoredQual now (1 + j)
          ((mapGet (backupIdMap 1 S.marines)
            ((survivingQuals S).get ⟨j, hj⟩).marineId).getD 0)
          ((survivingQuals S).get ⟨j, hj⟩) := by
      rw [List.get_of_eq hRq2 ⟨j, hj2⟩]
      exact renumberQuals_get now (backupIdMap 1 S.marines) (survivingQuals S) 1 j hj _
    have hmem : (survivingQuals S).get ⟨j, hj⟩ ∈ survivingQuals S :=
      List.get_mem _ _ _
    have hkeepB : (S.marines.map Marine.id).contains
        ((survivingQuals S).get ⟨j, hj⟩).marineId = true :=
      (List.mem_filter.mp
        (show (survivingQuals S).get ⟨j, hj⟩ ∈
            S.quals.filter
              (fun q => (S.marines.map Marine.id).contains q.marineId) from hmem)).2
    have hkeep : (mapGet (backupIdMap 1 S.marines)
        ((survivingQuals S).get ⟨j, hj⟩).marineId).isSome = true := by
      rw [mapGet_backupIdMap_isSome]
      exact hkeepB
    obtain ⟨nid, hnid⟩ := Option.isSome_iff_exists.mp hkeep
    rw [hnid] at hget
    simp only [Option.getD_some] at hget
    obtain ⟨i, hi, hid, hnidval⟩ :=
      mapGet_backupIdMap_some_inv S.marines 1
        ((survivingQuals S).get ⟨j, hj⟩).marineId nid hnid
    have hi2 : i < (importFromBackup now (exportAllData S) emptyStore).marines.length := by
      rw [hlen]
      exact hi
    have hmar : (importFromBackup now (exportAllData S) emptyStore).marines.get
        ⟨i, hi2⟩ = restoredMarine now (1 + i) (S.marines.get ⟨i, hi⟩) := by
      rw [List.get_of_eq hRm ⟨i, hi2⟩]
      exact restoredMarines_get now S.marines 1 i hi _
    refine ⟨?_, ?_, ?_, ?_, ?_, ?_, ?_, i, hi, hi2, hid, ?_⟩
    · rw [hget]
      simp [restoredQual]
    · rw [hget]
      simp [restoredQual]
    · rw [hget]
      simp [restoredQual]
    · rw [hget]
      simp [restoredQual]
    · rw [hget]
      simp [restoredQual]
    · rw [hget]
      simp [restoredQual]
    · rw [hget]
      simp [restoredQual]
    · rw [hget, hmar]
      simp [restoredQual, restoredMarine, hnidval]

/-- A one-person, one-qualification store for exercising the backup
round-trip at concrete timestamps. -/
def c6Marine : Marine :=
  { id := 1, edipi := str "123", eas := none, payload := "fields",
    status := some "present", createdAt := some 5, updatedAt := some 5 }

def c6Qual : Qualification :=
  { id := 1, marineId := 1, type := "pha", completionDate := some ⟨2024, 1, 1⟩,
    expirationDate := some ⟨2025, 1, 1⟩, score := none, source := "manual",
    createdAt := some 5, updatedAt := some 5 }

def c6Store : Store :=
  { marines := [c6Marine], quals := [c6Qual], nextMarineId := 2, nextQualId := 2 }

/-- C6 counterexample to the claim as stated: re-importing a backup at a
later time overwrites `updatedAt` (a field value that is not a
store-assigned id) with the import time, so not ALL field values are
preserved. -/
theorem backup_roundtrip_updatedAt_changes :
    ((importFromBackup 9 (exportAllData c6Store) emptyStore).marines.head?).map
        Marine.updatedAt = some (some 9)
    ∧ (c6Store.marines.head?).map Marine.updatedAt = some (some 5)
    ∧ ((importFromBackup 9 (exportAllData c6Store) emptyStore).marines.head?).map
        Marine.updatedAt ≠ (c6Store.marines.head?).map Marine.updatedAt := by
  refine ⟨by decide, by decide, by decide⟩

/-- Witness for `backup_roundtrip_preserves` on the concrete one-person
store. -/
theorem backup_roundtrip_preserves_witness :
    (importFromBackup 9 (exportAllData c6Store) emptyStore).marines.length =
      c6Store.marines.length :=
  (backup_roundtrip_preserves c6Store 9).1

end TeepTracker
